import Mathlib

/-!
# GoFilm: `server/model/Movies.go`

A shallow embedding of the search-keyword maintenance code of
`server/model/Movies.go` (`SearchKeyword`, `ConvertSearchInfo`, `SaveDetails`)
together with the properties of the facet vocabulary that the specification
states about it.

Conventions of the embedding

* A Go `string` is a list of Unicode scalar values (`Str`), i.e. the strings are
  taken to be valid UTF-8.  On such strings the byte-wise functions of package
  `strings` (`Contains`, `Split` on a one-byte separator, `Trim` with a one-byte
  cutset) coincide with their code-point-wise versions below.
* `int64` / `int` values are `Int`; where the source does arithmetic on them the
  two's-complement wrap-around is explicit (`wrapInt64`).
* The Redis store is explicit state (`Store`).  The outcome of a write whose
  error the source inspects or discards is an input (`Step`).
* `float64` values are kept as uninterpreted bit patterns (`Float64`) and
  `strconv.ParseFloat` is a parameter (`Env.ParseFloat`).
-/

namespace GoFilm

/-- A Go string: the sequence of its code points. -/
abbrev Str := List Char

/-! ## Package `strings` -/

/-- Go `strings.Contains(s, substr)`: `substr` occurs in `s` as a contiguous block. -/
def Contains : Str → Str → Bool
  | [], substr => substr.isEmpty
  | c :: s, substr => substr.isPrefixOf (c :: s) || Contains s substr

/-- Go `strings.Split(s, sep)` for a separator of one character: the pieces of `s`
between the occurrences of `sep`; a string without `sep` gives the one piece `s`. -/
def Split : Str → Char → List Str
  | [], _ => [[]]
  | c :: s, sep =>
    if c = sep then [] :: Split s sep
    else match Split s sep with
      | [] => [[c]]
      | t :: ts => (c :: t) :: ts

/-- Go `strings.Trim(s, cutset)` for a cutset of one character: all leading and all
trailing occurrences of `c` are removed. -/
def Trim (s : Str) (c : Char) : Str :=
  ((s.dropWhile (· == c)).reverse.dropWhile (· == c)).reverse

/-- Go `unicode.IsSpace`: the code points with the Unicode White Space property. -/
def isSpace (c : Char) : Bool :=
  let n := c.toNat
  (9 ≤ n && n ≤ 13) || n == 32 || n == 0x85 || n == 0xA0 || n == 0x1680 ||
  (0x2000 ≤ n && n ≤ 0x200A) || n == 0x2028 || n == 0x2029 || n == 0x202F ||
  n == 0x205F || n == 0x3000

/-- Go `strings.TrimSpace(s)`: all leading and trailing white space is removed. -/
def TrimSpace (s : Str) : Str :=
  ((s.dropWhile isSpace).reverse.dropWhile isSpace).reverse

/-! ## Package `fmt` and `strconv` -/

/-- Two's-complement wrap-around of a 64-bit signed integer. -/
def wrapInt64 (x : Int) : Int := (x + 2 ^ 63) % 2 ^ 64 - 2 ^ 63

/-- Decimal digits of `n`, most significant first, in front of `acc`. -/
def digitsAux : Nat → Nat → Str → Str
  | 0, _, acc => acc
  | fuel + 1, n, acc =>
    let acc1 := Char.ofNat (48 + n % 10) :: acc
    if n < 10 then acc1 else digitsAux fuel (n / 10) acc1

/-- The verb `%d` applied to a non-negative integer. -/
def FormatUint (n : Nat) : Str := digitsAux (n + 1) n []

/-- The verb `%d` applied to an integer: decimal digits, preceded by `-` when negative. -/
def FormatInt (x : Int) : Str :=
  if x < 0 then '-' :: FormatUint (-x).toNat else FormatUint x.toNat

/-- `fmt.Sprintf("%s,%s", a, b)`. -/
def SprintfSS (a b : Str) : Str := a ++ ',' :: b

/-- `fmt.Sprintf("%s,%d", a, n)` for an `int` n. -/
def SprintfSD (a : Str) (n : Int) : Str := a ++ ',' :: FormatInt n

/-- `fmt.Sprintf("%s,%c", a, i)` for a code point `i`. -/
def SprintfSC (a : Str) (i : Nat) : Str := a ++ [',', Char.ofNat i]

/-- The character is a decimal digit: `'0' <= c && c <= '9'`. -/
def isDigitC (c : Char) : Bool := '0' ≤ c && c ≤ '9'

/-- The error of a `strconv` parse. -/
inductive NumError where
  | ErrSyntax
  | ErrRange
  deriving DecidableEq, Repr

/-- The loop of Go `strconv.ParseUint(s, 10, 64)` over the characters that remain;
`n` is the value accumulated so far, a `uint64`. -/
def parseUintLoop : Str → Nat → Nat × Option NumError
  | [], n => (n, none)
  | c :: s, n =>
    if !isDigitC c then (0, some NumError.ErrSyntax)
    else
      let d := c.toNat - 48
      if n ≥ (2 ^ 64 - 1) / 10 + 1 then (2 ^ 64 - 1, some NumError.ErrRange)
      else
        let n0 := n * 10 % 2 ^ 64
        let n1 := (n0 + d) % 2 ^ 64
        if n1 < n0 || n1 > 2 ^ 64 - 1 then (2 ^ 64 - 1, some NumError.ErrRange)
        else parseUintLoop s n1

/-- Go `strconv.ParseUint(s, 10, 64)`. -/
def ParseUint (s : Str) : Nat × Option NumError :=
  if s = [] then (0, some NumError.ErrSyntax) else parseUintLoop s 0

/-- Go `strconv.ParseInt(s, 10, 64)`. -/
def ParseInt (s : Str) : Int × Option NumError :=
  match s with
  | [] => (0, some NumError.ErrSyntax)
  | c :: rest =>
    let neg := c = '-'
    let s1 := if c = '+' ∨ c = '-' then rest else c :: rest
    let (un, err) := ParseUint s1
    if err = some NumError.ErrSyntax then (0, err)
    else if ¬ neg ∧ un ≥ 2 ^ 63 then (2 ^ 63 - 1, some NumError.ErrRange)
    else if neg ∧ un > 2 ^ 63 then (-(2 ^ 63), some NumError.ErrRange)
    else (if neg then -(un : Int) else (un : Int), none)

/-- A `float64`, kept as its bit pattern; no arithmetic is done on it here. -/
structure Float64 where
  bits : Nat
  deriving DecidableEq, Repr

/-! ## Package `time` -/

/-- Go `time.Time`, reduced to what `Unix` reads: `ext` is the number of seconds since
January 1, year 1, 00:00:00 UTC.  The zero value `Time{}` has `ext = 0`. -/
structure Time where
  ext : Int
  deriving DecidableEq, Repr

/-- The zero value `time.Time{}`. -/
def Time.zero : Time := { ext := 0 }

/-- Go constant `unixToInternal`: seconds from January 1, year 1 to January 1, 1970. -/
def unixToInternal : Int := (1969 * 365 + 1969 / 4 - 1969 / 100 + 1969 / 400) * 86400

/-- Go `Time.Unix`: seconds since January 1, 1970 UTC. -/
def Time.Unix (t : Time) : Int := t.ext + -unixToInternal

/-- One zone transition interval of a `time.Location`: its offset east of UTC in
seconds and the Unix times between which it applies. -/
structure ZoneSpan where
  offset : Int
  start : Int
  stop : Int

/-- A `time.Location`: its `lookup` function. -/
abbrev Location := Int → ZoneSpan

/-- Go `isLeap`. -/
def isLeap (year : Int) : Bool := year % 4 = 0 && (year % 100 ≠ 0 || year % 400 = 0)

/-- Go `daysIn(month, year)`. -/
def daysIn (month : Nat) (year : Int) : Nat :=
  if month = 2 then (if isLeap year then 29 else 28)
  else if month = 4 ∨ month = 6 ∨ month = 9 ∨ month = 11 then 30 else 31

/-- Days from the first of January to the first of `month` in `year`. -/
def daysBefore (month : Nat) (year : Int) : Nat :=
  ((List.range (month - 1)).map (fun m => daysIn (m + 1) year)).sum

/-- Days from January 1, year 1 to January 1 of `year`. -/
def daysSinceYearOne (year : Int) : Int :=
  let y := year - 1
  365 * y + y / 4 - y / 100 + y / 400

/-- Go `time.Date(year, month, day, hour, min, sec, 0, loc)` for in-range fields. -/
def Date (year : Int) (month day hour min sec : Nat) (loc : Location) : Time :=
  let d := daysSinceYearOne year + daysBefore month year + ((day : Int) - 1)
  let abs := d * 86400 + hour * 3600 + min * 60 + sec
  let unix := abs - unixToInternal
  let z := loc unix
  let unix1 :=
    if z.offset ≠ 0 then
      let utc := unix - z.offset
      let offset := if utc < z.start ∨ utc ≥ z.stop then (loc utc).offset else z.offset
      unix - offset
    else unix
  { ext := unix1 + unixToInternal }

/-- Go `getnum(s, fixed)`: a number of one or two digits (exactly two when `fixed`),
and the rest of the input. -/
def getnum (s : Str) ( fixed : Bool) : Option (Nat × Str) :=
  match s with
  | [] => none
  | a :: rest =>
    if !isDigitC a then none
    else match rest with
      | [] => if fixed then none else some (a.toNat - 48, rest)
      | b :: rest2 =>
        if !isDigitC b then (if fixed then none else some (a.toNat - 48, rest))
        else some ((a.toNat - 48) * 10 + (b.toNat - 48), rest2)

/-- Go `skip(value, prefix)` for a one-character literal of the layout: a space of the
layout matches any run of spaces of the input, another character matches itself. -/
def skipLit (value : Str) (lit : Char) : Option Str :=
  if lit = ' ' then
    match value with
    | [] => some []
    | c :: _ => if c ≠ ' ' then none else some (value.dropWhile (· == ' '))
  else
    match value with
    | [] => none
    | c :: rest => if c ≠ lit then none else some rest

/-- The four-digit year of the layout (`stdLongYear`). -/
def getYear (value : Str) : Option (Int × Str) :=
  match value with
  | a :: b :: c :: d :: rest =>
    if isDigitC a && isDigitC b && isDigitC c && isDigitC d then
      some ((((a.toNat - 48) * 1000 + (b.toNat - 48) * 100 + (c.toNat - 48) * 10
        + (d.toNat - 48) : Nat) : Int), rest)
    else none
  | _ => none

/-- A fractional second that the input carries after the seconds although the layout
has none: a period or comma followed by digits is consumed. -/
def skipFraction (value : Str) : Str :=
  match value with
  | p :: d :: rest =>
    if (p = '.' ∨ p = ',') ∧ isDigitC d then rest.dropWhile isDigitC else value
  | _ => value

/-- Go `time.ParseInLocation(time.DateTime, value, loc)`, the layout being
`"2006-01-02 15:04:05"`; `none` stands for a returned error, in which case Go returns
the zero `Time`. -/
def parseDateTime (value : Str) (loc : Location) : Option Time := do
  let (year, v) ← getYear value
  let v ← skipLit v '-'
  let (month, v) ← getnum v true
  if month = 0 ∨ 12 < month then none
  let v ← skipLit v '-'
  let (day, v) ← getnum v true
  let v ← skipLit v ' '
  let (hour, v) ← getnum v false
  if 24 ≤ hour then none
  let v ← skipLit v ':'
  let (min, v) ← getnum v true
  if 60 ≤ min then none
  let v ← skipLit v ':'
  let (sec, v) ← getnum v true
  if 60 ≤ sec then none
  let v := skipFraction v
  if v ≠ [] then none
  if day < 1 ∨ day > daysIn month year then none
  some (Date year month day hour min sec loc)

/-- Go `time.ParseInLocation(time.DateTime, value, loc)` with its error dropped
(`stamp, _ := ...`): the zero `Time` on failure. -/
def ParseInLocation (value : Str) (loc : Location) : Time :=
  match parseDateTime value loc with
  | some t => t
  | none => Time.zero

/-! ## The data model of `Movies.go` -/

/-- Go struct `MovieUrlInfo`. -/
structure MovieUrlInfo where
  Episode : Str
  Link : Str
  deriving DecidableEq

/-- Go struct `MovieDescriptor`. -/
structure MovieDescriptor where
  SubTitle : Str
  CName : Str
  EnName : Str
  Initial : Str
  ClassTag : Str
  Actor : Str
  Director : Str
  Writer : Str
  Blurb : Str
  Remarks : Str
  ReleaseDate : Str
  Area : Str
  Language : Str
  Year : Str
  State : Str
  UpdateTime : Str
  AddTime : Int
  DbId : Int
  DbScore : Str
  Content : Str
  deriving DecidableEq

/-- Go struct `MovieBasicInfo`. -/
structure MovieBasicInfo where
  Id : Int
  Cid : Int
  Pid : Int
  Name : Str
  SubTitle : Str
  CName : Str
  State : Str
  Picture : Str
  Actor : Str
  Director : Str
  Blurb : Str
  Remarks : Str
  Area : Str
  Year : Str
  deriving DecidableEq

/-- Go struct `MovieDetail`; the embedded `MovieDescriptor` is the parent structure. -/
structure MovieDetail extends MovieDescriptor where
  Id : Int
  Cid : Int
  Pid : Int
  Name : Str
  Picture : Str
  PlayFrom : List Str
  DownFrom : Str
  PlayList : List (List MovieUrlInfo)
  DownloadList : List (List MovieUrlInfo)
  deriving DecidableEq

/-- Go struct `SearchInfo`, with the fields that `ConvertSearchInfo` fills. -/
structure SearchInfo where
  Mid : Int
  Cid : Int
  Pid : Int
  Name : Str
  CName : Str
  ClassTag : Str
  Area : Str
  Language : Str
  Year : Int
  Initial : Str
  Score : Float64
  Rank : Int
  Time : Int
  State : Str
  Remarks : Str
  ReleaseDate : Int
  deriving DecidableEq

/-- The hash document of the search keywords of one parent category, as the map
`keyword` of `SearchKeyword` reads it: a field that is absent reads as the empty
string, as `keyword["..."]` does. -/
structure Vocab where
  Category : Str
  Tag : Str
  Area : Str
  Language : Str
  Year : Str
  Initial : Str
  Sort_ : Str
  deriving DecidableEq

/-- The document of a key that holds no hash. -/
def Vocab.empty : Vocab :=
  { Category := [], Tag := [], Area := [], Language := [], Year := [], Initial := [], Sort_ := [] }

/-- The error of a store command, by its message. -/
abbrev Error := String

/-- The store `db.Rdb`, as far as `SaveDetails` touches it. -/
structure Store where
  /-- The detail snapshot under the key of `(Cid, Id)`. -/
  details : Int → Int → Option MovieDetail
  /-- The basic-info snapshot under the key of `(Cid, Id)`. -/
  basics : Int → Int → Option MovieBasicInfo
  /-- The search-keyword hash under the key of `Pid`. -/
  keywords : Int → Vocab

/-- What the surroundings decide while one record of a batch is processed: the
outcome of the detail write (`nil` or an error), whether the two writes whose error is
discarded take effect, and the year that `time.Now().Year()` returns. -/
structure Step where
  detailErr : Option Error
  basicOk : Bool
  keywordOk : Bool
  year : Int

/-- The parameters of the code that are not part of this file of the repository. -/
structure Env where
  /-- Go `strconv.ParseFloat(s, 64)` with its error dropped. -/
  ParseFloat : Str → Float64
  /-- Go `time.Local`. -/
  Local : Location
  /-- The function `RdbSaveSearchInfo` of the repository, as a store transformer. -/
  RdbSaveSearchInfo : List SearchInfo → Store → Store

/-! ## `SearchKeyword` -/

/-- The year seed: `year = fmt.Sprintf("%s,%d", year, currentYear-i)` for `i = 0 .. 11`. -/
def seedYear (currentYear : Int) : Str :=
  (List.range 12).foldl (fun year i => SprintfSD year (wrapInt64 (currentYear - i))) []

/-- The initial-letter seed: `initial = fmt.Sprintf("%s,%c", initial, i)` for
`i = 65 .. 90`. -/
def seedInitial : Str :=
  (List.range' 65 26).foldl (fun initial i => SprintfSC initial i) []

/-- The first part of `SearchKeyword`: the document read, replaced by the seeded one
when its `Year` is empty. -/
def loadKeyword (currentYear : Int) (keyword : Vocab) : Vocab :=
  if keyword.Year = [] then
    { Category := [],
      Tag := [],
      Area := [],
      Language := [],
      Year := Trim (seedYear currentYear) ',',
      Initial := Trim seedInitial ',',
      Sort_ := "Time,Db,Score".toList }
  else keyword

/-- The statement repeated for every token:
`if !strings.Contains(v, chk) { v = strings.Trim(fmt.Sprintf("%s,%s", v, app), ",") }`. -/
def appendUnless (v chk app : Str) : Str :=
  if !Contains v chk then Trim (SprintfSS v app) ',' else v

/-- The category part of `SearchKeyword`. -/
def mergeCategory (category cName : Str) : Str :=
  appendUnless category cName cName

/-- The tag part of `SearchKeyword` (and, with the same text, the language part). -/
def mergeTag (tag classTag : Str) : Str :=
  if Contains classTag ['/'] then
    (Split classTag '/').foldl (fun tag t => appendUnless tag t t) tag
  else if Contains classTag [','] then
    (Split classTag ',').foldl (fun tag t => appendUnless tag t t) tag
  else appendUnless tag classTag classTag

/-- The area part of `SearchKeyword`: the test is on the token without its outer
white space, the token appended is the token as split. -/
def mergeArea (area recArea : Str) : Str :=
  if Contains recArea ['/'] then
    (Split recArea '/').foldl (fun area s => appendUnless area (TrimSpace s) s) area
  else if Contains recArea [','] then
    (Split recArea ',').foldl (fun area s => appendUnless area (TrimSpace s) s) area
  else appendUnless area recArea recArea

/-- The language part of `SearchKeyword`. -/
def mergeLanguage (language recLanguage : Str) : Str :=
  if Contains recLanguage ['/'] then
    (Split recLanguage '/').foldl (fun language l => appendUnless language l l) language
  else if Contains recLanguage [','] then
    (Split recLanguage ',').foldl (fun language l => appendUnless language l l) language
  else appendUnless language recLanguage recLanguage

/-- The second part of `SearchKeyword`: the record merged into the loaded map. -/
def mergeKeyword (keyword : Vocab) (search : SearchInfo) : Vocab :=
  let keyword := { keyword with Category := mergeCategory keyword.Category search.CName }
  let keyword := { keyword with Tag := mergeTag keyword.Tag search.ClassTag }
  let keyword := { keyword with Area := mergeArea keyword.Area search.Area }
  { keyword with Language := mergeLanguage keyword.Language search.Language }

/-- The map that `SearchKeyword` hands to `HMSet`, from the document that `HGetAll`
returned. -/
def searchKeywordDoc (currentYear : Int) (doc : Vocab) (search : SearchInfo) : Vocab :=
  mergeKeyword (loadKeyword currentYear doc) search

/-- Go `SearchKeyword(search)`: the hash under the key of `search.Pid` is read, merged
and written back. -/
def SearchKeyword (currentYear : Int) (st : Store) (search : SearchInfo) : Store :=
  { st with
    keywords := (Function.update st.keywords search.Pid
      (searchKeywordDoc currentYear (st.keywords search.Pid) search)) }

/-! ## `ConvertSearchInfo`, `SaveMovieBasicInfo`, `SaveDetails` -/

/-- Go `ConvertSearchInfo(detail)`. -/
def ConvertSearchInfo (env : Env) (detail : MovieDetail) : SearchInfo :=
  let score := env.ParseFloat detail.DbScore
  let stamp := ParseInLocation detail.UpdateTime env.Local
  let (year0, err) := ParseInt detail.Year
  let year := if err ≠ none then 0 else year0
  { Mid := detail.Id,
    Cid := detail.Cid,
    Pid := detail.Pid,
    Name := detail.Name,
    CName := detail.CName,
    ClassTag := detail.ClassTag,
    Area := detail.Area,
    Language := detail.Language,
    Year := year,
    Initial := detail.Initial,
    Score := score,
    Rank := detail.DbId,
    Time := stamp.Unix,
    State := detail.State,
    Remarks := detail.Remarks,
    ReleaseDate := detail.AddTime }

/-- Go `SaveMovieBasicInfo(detail)`; `ok` tells whether the write, whose error is
discarded, took effect. -/
def SaveMovieBasicInfo (st : Store) (detail : MovieDetail) (ok : Bool) : Store :=
  let basicInfo : MovieBasicInfo :=
    { Id := detail.Id,
      Cid := detail.Cid,
      Pid := detail.Pid,
      Name := detail.Name,
      SubTitle := detail.SubTitle,
      CName := detail.CName,
      State := detail.State,
      Picture := detail.Picture,
      Actor := detail.Actor,
      Director := detail.Director,
      Blurb := detail.Blurb,
      Remarks := detail.Remarks,
      Area := detail.Area,
      Year := detail.Year }
  if ok then
    { st with
      basics := (Function.update st.basics detail.Cid
        (Function.update (st.basics detail.Cid) detail.Id (some basicInfo))) }
  else st

/-- Go `BatchSaveSearchInfo(list)`. -/
def BatchSaveSearchInfo (env : Env) (st : Store) (list : List MovieDetail) : Store :=
  let infoList := list.foldl (fun infoList v => infoList ++ [ConvertSearchInfo env v]) []
  env.RdbSaveSearchInfo infoList st

/-- The body of the loop of `SaveDetails` for one record; the state is the store and
the variable `err`. -/
def saveDetailStep (env : Env) (w : Step) (st : Store) (detail : MovieDetail) :
    Store × Option Error :=
  let err := w.detailErr
  let st :=
    if err = none then
      { st with
        details := (Function.update st.details detail.Cid
          (Function.update (st.details detail.Cid) detail.Id (some detail))) }
    else st
  let st := SaveMovieBasicInfo st detail w.basicOk
  let st :=
    if err = none then
      let searchInfo := ConvertSearchInfo env detail
      if w.keywordOk then SearchKeyword w.year st searchInfo else st
    else st
  (st, err)

/-- The loop of `SaveDetails`; `i` is the position of the next record in the batch. -/
def saveDetailsLoop (env : Env) (world : Nat → Step) :
    Nat → List MovieDetail → Store × Option Error → Store × Option Error
  | _, [], acc => acc
  | i, detail :: rest, acc =>
    saveDetailsLoop env world (i + 1) rest (saveDetailStep env (world i) acc.1 detail)

/-- Go `SaveDetails(list)`: the resulting store and the returned `err`; `world i` is
what the surroundings decide for the record at position `i`. -/
def SaveDetails (env : Env) (world : Nat → Step) (st : Store) (list : List MovieDetail) :
    Store × Option Error :=
  let r := saveDetailsLoop env world 0 list (st, none)
  (BatchSaveSearchInfo env r.1 list, r.2)

/-! ## Vocabulary of the statements -/

/-- The comma-separated tokens of a flattened facet string. -/
def tokens (v : Str) : List Str := Split v ','

/-- The string begins or ends with a comma. -/
def commaBounded (u : Str) : Bool := u.head? == some ',' || u.getLast? == some ','

/-- The string neither begins nor ends with white space. -/
def noOuterSpace (u : Str) : Bool :=
  !(u.head?.any isSpace) && !(u.getLast?.any isSpace)

/-- The tokens that the tag part (and the language part) of `SearchKeyword` goes
through for a field value, in order, each as the pair of the string tested for
containment and the string appended. -/
def tagTokens (s : Str) : List (Str × Str) :=
  if Contains s ['/'] then (Split s '/').map (fun t => (t, t))
  else if Contains s [','] then (Split s ',').map (fun t => (t, t))
  else [(s, s)]

/-- The tokens that the area part of `SearchKeyword` goes through for a field value,
each as the pair of the string tested for containment and the string appended. -/
def areaTokens (s : Str) : List (Str × Str) :=
  if Contains s ['/'] then (Split s '/').map (fun t => (TrimSpace t, t))
  else if Contains s [','] then (Split s ',').map (fun t => (TrimSpace t, t))
  else [(s, s)]

/-- The statement of `appendUnless` run over a list of (tested, appended) pairs. -/
def mergeTokens (v : Str) (l : List (Str × Str)) : Str :=
  l.foldl (fun v p => appendUnless v p.1 p.2) v

/-- The tokens of a list whose tested string is not empty: an empty tested string
occurs in every facet string, so such a token is never appended. -/
def liveTokens (l : List (Str × Str)) : List (Str × Str) :=
  l.filter (fun p => !p.1.isEmpty)

/-- Among the tokens of two records that can be appended at all (the tested string is
not empty): none holds a comma, and a token of one record whose tested string occurs
inside a token of the other record is appended as that same token. -/
def crossIndependent (l1 l2 : List (Str × Str)) : Prop :=
  (∀ p ∈ liveTokens (l1 ++ l2), ',' ∉ p.2) ∧
  (∀ p ∈ liveTokens l1, ∀ q ∈ liveTokens l2, Contains q.2 p.1 = true → p.2 = q.2) ∧
  (∀ q ∈ liveTokens l2, ∀ p ∈ liveTokens l1, Contains p.2 q.1 = true → q.2 = p.2)

instance (l1 l2 : List (Str × Str)) : Decidable (crossIndependent l1 l2) :=
  inferInstanceAs (Decidable
    ((∀ p ∈ liveTokens (l1 ++ l2), ',' ∉ p.2) ∧
     (∀ p ∈ liveTokens l1, ∀ q ∈ liveTokens l2, Contains q.2 p.1 = true → p.2 = q.2) ∧
     (∀ q ∈ liveTokens l2, ∀ p ∈ liveTokens l1, Contains p.2 q.1 = true → q.2 = p.2)))

/-- One token merged into a list of tokens: appended unless its tested string occurs
inside a token of the list. -/
def appendToken (ts : List Str) (p : Str × Str) : List Str :=
  if ts.any (fun x => Contains x p.1) then ts else ts ++ [p.2]

/-- A list of (tested, appended) pairs merged into a list of tokens. -/
def foldTokens (ts : List Str) (l : List (Str × Str)) : List Str :=
  l.foldl appendToken ts

/-- The store after a sequence of calls of `SearchKeyword`, each with the current year
of the call and its record. -/
def applyMerges (st : Store) (ops : List (Int × SearchInfo)) : Store :=
  ops.foldl (fun st op => SearchKeyword op.1 st op.2) st

/-- The string is a decimal integer literal: an optional sign and one digit or more. -/
def isDecimalLiteral (s : Str) : Bool :=
  match s with
  | [] => false
  | c :: rest =>
    let ds := if c = '+' ∨ c = '-' then rest else c :: rest
    !ds.isEmpty && ds.all isDigitC

/-- The natural number that a string of decimal digits denotes. -/
def digitsValue (ds : Str) : Nat := ds.foldl (fun n c => n * 10 + (c.toNat - 48)) 0

/-- The integer that a decimal integer literal denotes. -/
def literalValue (s : Str) : Int :=
  match s with
  | [] => 0
  | c :: rest =>
    if c = '-' then -(digitsValue rest : Int)
    else if c = '+' then (digitsValue rest : Int)
    else (digitsValue (c :: rest) : Int)

/-- The string is a valid base-10 literal of a signed 64-bit integer. -/
def isInt64Literal (s : Str) : Bool :=
  isDecimalLiteral s && decide (-(2 ^ 63) ≤ literalValue s) && decide (literalValue s < 2 ^ 63)

/-- The tokens of a facet string once its leading commas are dropped: what is left of
the stored tokens after a token has been appended and the result trimmed. -/
def baseTokens (v : Str) : List Str :=
  if v.dropWhile (· == ',') = [] then [] else Split (v.dropWhile (· == ',')) ','

/-- A store that holds nothing. -/
def Store.empty : Store :=
  { details := fun _ _ => none, basics := fun _ _ => none, keywords := fun _ => Vocab.empty }

/-- The decimal renderings of the twelve years from `y` downwards. -/
def yearTokens (y : Int) : List Str :=
  [FormatInt y, FormatInt (y - 1), FormatInt (y - 2), FormatInt (y - 3), FormatInt (y - 4),
   FormatInt (y - 5), FormatInt (y - 6), FormatInt (y - 7), FormatInt (y - 8),
   FormatInt (y - 9), FormatInt (y - 10), FormatInt (y - 11)]

/-- A search record with every field empty or zero. -/
def SearchInfo.blank : SearchInfo :=
  { Mid := 0, Cid := 0, Pid := 0, Name := [], CName := [], ClassTag := [], Area := [],
    Language := [], Year := 0, Initial := [], Score := { bits := 0 }, Rank := 0, Time := 0,
    State := [], Remarks := [], ReleaseDate := 0 }

/-- A descriptor with every field empty or zero. -/
def MovieDescriptor.blank : MovieDescriptor :=
  { SubTitle := [], CName := [], EnName := [], Initial := [], ClassTag := [], Actor := [],
    Director := [], Writer := [], Blurb := [], Remarks := [], ReleaseDate := [], Area := [],
    Language := [], Year := [], State := [], UpdateTime := [], AddTime := 0, DbId := 0,
    DbScore := [], Content := [] }

/-- A detail record with every field empty or zero. -/
def MovieDetail.blank : MovieDetail :=
  { MovieDescriptor.blank with
    Id := 0, Cid := 0, Pid := 0, Name := [], Picture := [], PlayFrom := [], DownFrom := [],
    PlayList := [], DownloadList := [] }

/-- A location whose offset is zero throughout (UTC). -/
def Location.utc : Location := fun _ => { offset := 0, start := 0, stop := 0 }

/-- An environment for examples: UTC, a float parser that returns zero, and a batch
save of the search records that leaves the store as it is. -/
def Env.example : Env :=
  { ParseFloat := fun _ => { bits := 0 },
    Local := Location.utc,
    RdbSaveSearchInfo := fun _ st => st }

/-! # Theorems -/

set_option maxRecDepth 8000

/-! ## Facts about the string functions -/

theorem contains_iff (s t : Str) : Contains s t = true ↔ t <:+: s := by
  induction s with
  | nil =>
    cases t with
    | nil => simp [Contains]
    | cons a t => simp [Contains]
  | cons c s ih =>
    rw [Contains, Bool.or_eq_true, ih, List.infix_cons_iff, List.isPrefixOf_iff_prefix]

theorem contains_false_iff (s t : Str) : Contains s t = false ↔ ¬ t <:+: s := by
  rw [← contains_iff]; simp

theorem split_ne_nil (s : Str) (c : Char) : Split s c ≠ [] := by
  cases s with
  | nil => simp [Split]
  | cons x s =>
    rw [Split]
    split
    · simp
    · split <;> simp

theorem split_cons_sep (s : Str) (c : Char) : Split (c :: s) c = [] :: Split s c := by
  simp [Split]

theorem split_cons_ne (x : Char) (s : Str) (c : Char) (h : x ≠ c) :
    ∃ t ts, Split s c = t :: ts ∧ Split (x :: s) c = (x :: t) :: ts := by
  rcases hs : Split s c with _ | ⟨t, ts⟩
  · exact absurd hs (split_ne_nil s c)
  · exact ⟨t, ts, rfl, by simp [Split, h, hs]⟩

theorem split_append_sep (a b : Str) (c : Char) :
    Split (a ++ c :: b) c = Split a c ++ Split b c := by
  induction a with
  | nil => simp [Split]
  | cons x a ih =>
    by_cases h : x = c
    · subst h
      simp [split_cons_sep, ih]
    · obtain ⟨t, ts, h1, h2⟩ := split_cons_ne x a c h
      obtain ⟨t2, ts2, h3, h4⟩ := split_cons_ne x (a ++ c :: b) c h
      rw [List.cons_append, h4, h2]
      rw [ih, h1] at h3
      simp at h3
      simp [h3.1, h3.2]

theorem split_of_not_mem (s : Str) (c : Char) (h : c ∉ s) : Split s c = [s] := by
  induction s with
  | nil => simp [Split]
  | cons x s ih =>
    have hx : x ≠ c := fun e => h (by simp [e])
    have hs : c ∉ s := fun e => h (by simp [e])
    simp [Split, hx, ih hs]

theorem split_head_leading (s : Str) (c : Char) :
    ∀ t ts, Split s c = t :: ts → t <+: s := by
  induction s with
  | nil =>
    intro t ts h
    simp only [Split, List.cons.injEq] at h
    obtain ⟨h1, _⟩ := h
    subst h1
    exact List.nil_prefix
  | cons y s ih =>
    intro t ts h
    by_cases hy : y = c
    · subst hy
      rw [split_cons_sep] at h
      simp only [List.cons.injEq] at h
      obtain ⟨h1, _⟩ := h
      subst h1
      exact List.nil_prefix
    · obtain ⟨t1, ts1, h1, h2⟩ := split_cons_ne y s c hy
      rw [h2] at h
      simp only [List.cons.injEq] at h
      obtain ⟨h3, _⟩ := h
      subst h3
      exact (List.prefix_cons_inj y).2 (ih t1 ts1 h1)

theorem mem_split_occurs (s : Str) (c : Char) : ∀ x ∈ Split s c, x <:+: s := by
  induction s with
  | nil => simp [Split]
  | cons y s ih =>
    intro x hx
    by_cases h : y = c
    · subst h
      rw [split_cons_sep] at hx
      rcases List.mem_cons.1 hx with e | e
      · subst e; exact List.nil_infix
      · exact (ih x e).trans (List.infix_cons (List.infix_refl _))
    · obtain ⟨t, ts, h1, h2⟩ := split_cons_ne y s c h
      rw [h2] at hx
      rcases List.mem_cons.1 hx with e | e
      · subst e
        have hp : y :: t <+: y :: s := (List.prefix_cons_inj y).2 (split_head_leading s c t ts h1)
        exact hp.isInfix
      · exact (ih x (by simp [h1, e])).trans (List.infix_cons (List.infix_refl _))

/-- A leading block without the separator lies inside the first piece. -/
theorem prefix_split_head (c : Char) (s : Str) :
    ∀ u : Str, c ∉ u → u <+: s → ∀ t ts, Split s c = t :: ts → u <+: t := by
  induction s with
  | nil =>
    intro u _ h t ts _
    rw [List.prefix_nil] at h
    subst h
    exact List.nil_prefix
  | cons y s ih =>
    intro u hu h t ts ht
    cases u with
    | nil => exact List.nil_prefix
    | cons a u =>
      rw [List.cons_prefix_cons] at h
      obtain ⟨hay, hus⟩ := h
      subst hay
      have hac : a ≠ c := fun e => hu (by simp [e])
      obtain ⟨t1, ts1, h1, h2⟩ := split_cons_ne a s c hac
      rw [h2] at ht
      simp only [List.cons.injEq] at ht
      obtain ⟨h3, _⟩ := ht
      subst h3
      exact (List.prefix_cons_inj a).2 (ih u (fun e => hu (by simp [e])) hus t1 ts1 h1)

/-- A block without the separator occurs in a string exactly when it occurs in one of
its pieces. -/
theorem infix_iff_mem_split (c : Char) (u : Str) (hu : c ∉ u) (s : Str) :
    u <:+: s ↔ ∃ x ∈ Split s c, u <:+: x := by
  constructor
  · induction s with
    | nil =>
      intro h
      exact ⟨[], by simp [Split], h⟩
    | cons y s ih =>
      intro h
      rcases List.infix_cons_iff.1 h with hp | hi
      · rcases hs : Split (y :: s) c with _ | ⟨t, ts⟩
        · exact absurd hs (split_ne_nil _ _)
        · exact ⟨t, by simp, (prefix_split_head c (y :: s) u hu hp t ts hs).isInfix⟩
      · obtain ⟨x, hx, hux⟩ := ih hi
        by_cases hy : y = c
        · subst hy
          exact ⟨x, by simp [split_cons_sep, hx], hux⟩
        · obtain ⟨t1, ts1, h1, h2⟩ := split_cons_ne y s c hy
          rw [h1] at hx
          rcases List.mem_cons.1 hx with e | e
          · subst e
            exact ⟨y :: x, by simp [h2], hux.trans (List.infix_cons (List.infix_refl _))⟩
          · exact ⟨x, by simp [h2, e], hux⟩
  · rintro ⟨x, hx, hux⟩
    exact hux.trans (mem_split_occurs s c x hx)

/-! ## Facts about `Trim` -/

theorem trim_eq (s : Str) (c : Char) :
    Trim s c = List.rdropWhile (· == c) (s.dropWhile (· == c)) := rfl

theorem infix_dropWhile (c : Char) (u : Str) (hne : u ≠ []) (hh : u.head? ≠ some c) :
    ∀ s : Str, u <:+: s → u <:+: s.dropWhile (· == c) := by
  intro s
  induction s with
  | nil => intro h; simpa using h
  | cons y s ih =>
    intro h
    by_cases hy : y = c
    · subst hy
      have : ((y :: s).dropWhile (· == y)) = s.dropWhile (· == y) := by simp
      rw [this]
      rcases List.infix_cons_iff.1 h with hp | hi
      · cases u with
        | nil => exact absurd rfl hne
        | cons a u =>
          rw [List.cons_prefix_cons] at hp
          exact absurd (by simp [hp.1]) hh
      · exact ih hi
    · have : ((y :: s).dropWhile (· == c)) = y :: s := by simp [hy]
      rw [this]
      exact h

theorem infix_rdropWhile (c : Char) (u : Str) (hne : u ≠ []) (hl : u.getLast? ≠ some c)
    (s : Str) (h : u <:+: s) : u <:+: s.rdropWhile (· == c) := by
  unfold List.rdropWhile
  rw [← List.reverse_infix, List.reverse_reverse]
  apply infix_dropWhile c u.reverse (by simpa using hne) (by simpa using hl)
  exact List.reverse_infix.2 h

/-- A non-empty block that neither begins nor ends with `c` survives `Trim`. -/
theorem infix_trim (c : Char) (u : Str) (hne : u ≠ []) (hh : u.head? ≠ some c)
    (hl : u.getLast? ≠ some c) (s : Str) (h : u <:+: s) : u <:+: Trim s c := by
  rw [trim_eq]
  exact infix_rdropWhile c u hne hl _ (infix_dropWhile c u hne hh s h)

theorem mem_split_dropWhile (c : Char) (x : Str) (hx : x ≠ []) :
    ∀ s : Str, x ∈ Split s c → x ∈ Split (s.dropWhile (· == c)) c := by
  intro s
  induction s with
  | nil => intro h; simpa using h
  | cons y s ih =>
    intro h
    by_cases hy : y = c
    · subst hy
      have : ((y :: s).dropWhile (· == y)) = s.dropWhile (· == y) := by simp
      rw [this]
      rw [split_cons_sep] at h
      rcases List.mem_cons.1 h with e | e
      · exact absurd e hx
      · exact ih e
    · have : ((y :: s).dropWhile (· == c)) = y :: s := by simp [hy]
      rw [this]
      exact h

theorem split_concat_sep (s : Str) (c : Char) : Split (s ++ [c]) c = Split s c ++ [[]] := by
  rw [split_append_sep]
  simp [Split]

theorem mem_split_rdropWhile (c : Char) (x : Str) (hx : x ≠ []) :
    ∀ s : Str, x ∈ Split s c → x ∈ Split (s.rdropWhile (· == c)) c := by
  intro s
  induction s using List.reverseRecOn with
  | nil => intro h; simpa using h
  | append_singleton s y ih =>
    intro h
    by_cases hy : y = c
    · subst hy
      rw [List.rdropWhile_concat_pos _ _ _ (by simp)]
      rw [split_concat_sep] at h
      rcases List.mem_append.1 h with e | e
      · exact ih e
      · simp at e
        exact absurd e hx
    · rw [List.rdropWhile_concat_neg _ _ _ (by simp [hy])]
      exact h

/-- A non-empty piece of a string is still a piece of the trimmed string. -/
theorem mem_split_trim (c : Char) (x : Str) (hx : x ≠ []) (s : Str) (h : x ∈ Split s c) :
    x ∈ Split (Trim s c) c := by
  rw [trim_eq]
  exact mem_split_rdropWhile c x hx _ (mem_split_dropWhile c x hx s h)

theorem dropWhile_append_eq (p : Char → Bool) (v w : Str) :
    (v ++ w).dropWhile p = if v.dropWhile p = [] then w.dropWhile p else v.dropWhile p ++ w := by
  induction v with
  | nil => simp
  | cons y v ih =>
    by_cases hy : p y = true
    · simp [hy, ih]
    · simp [hy]

/-- What `Trim` returns when a non-empty token without `c` is appended after a `c`. -/
theorem trim_append_token (c : Char) (v a : Str) (hne : a ≠ []) (hc : c ∉ a) :
    Trim (v ++ c :: a) c =
      if v.dropWhile (· == c) = [] then a else v.dropWhile (· == c) ++ c :: a := by
  rw [trim_eq, dropWhile_append_eq]
  have hda : (c :: a).dropWhile (· == c) = a := by
    cases a with
    | nil => exact absurd rfl hne
    | cons x a =>
      have hx : x ≠ c := fun e => hc (by simp [e])
      simp [hx]
  have hlast : ∀ (w : Str), (w ++ a).rdropWhile (· == c) = w ++ a := by
    intro w
    rw [List.rdropWhile_eq_self_iff]
    intro hl
    rw [List.getLast_append_of_ne_nil hne]
    have : a.getLast hne ∈ a := List.getLast_mem hne
    intro e
    simp at e
    exact hc (e ▸ this)
  split
  · rw [hda]
    simpa using hlast []
  · have := hlast (v.dropWhile (· == c) ++ [c])
    simpa using this

/-! ## The merge as a fold over token pairs -/

theorem mergeTag_eq (v s : Str) : mergeTag v s = mergeTokens v (tagTokens s) := by
  unfold mergeTag tagTokens mergeTokens
  split
  · rw [List.foldl_map]
  · split
    · rw [List.foldl_map]
    · rfl

theorem mergeLanguage_eq (v s : Str) : mergeLanguage v s = mergeTokens v (tagTokens s) := by
  unfold mergeLanguage tagTokens mergeTokens
  split
  · rw [List.foldl_map]
  · split
    · rw [List.foldl_map]
    · rfl

theorem mergeArea_eq (v s : Str) : mergeArea v s = mergeTokens v (areaTokens s) := by
  unfold mergeArea areaTokens mergeTokens
  split
  · rw [List.foldl_map]
  · split
    · rw [List.foldl_map]
    · rfl

theorem mergeCategory_eq (v s : Str) : mergeCategory v s = mergeTokens v [(s, s)] := rfl

theorem mergeTokens_nil (v : Str) : mergeTokens v [] = v := rfl

theorem mergeTokens_cons (v : Str) (p : Str × Str) (l : List (Str × Str)) :
    mergeTokens v (p :: l) = mergeTokens (appendUnless v p.1 p.2) l := rfl

theorem mergeTokens_append (v : Str) (l1 l2 : List (Str × Str)) :
    mergeTokens v (l1 ++ l2) = mergeTokens (mergeTokens v l1) l2 := by
  unfold mergeTokens
  rw [List.foldl_append]

theorem appendUnless_of_contains (v chk app : Str) (h : chk <:+: v) :
    appendUnless v chk app = v := by
  unfold appendUnless
  rw [(contains_iff v chk).2 h]
  rfl

theorem appendUnless_of_not_contains (v chk app : Str) (h : ¬ chk <:+: v) :
    appendUnless v chk app = Trim (v ++ ',' :: app) ',' := by
  unfold appendUnless SprintfSS
  rw [(contains_false_iff v chk).2 h]
  rfl

theorem trimSpace_occurs (s : Str) : TrimSpace s <:+: s := by
  unfold TrimSpace
  have h1 : List.rdropWhile isSpace (s.dropWhile isSpace) <+: s.dropWhile isSpace :=
    List.rdropWhile_prefix isSpace _
  exact h1.isInfix.trans (List.dropWhile_suffix isSpace).isInfix

theorem tagTokens_fst_eq (s : Str) : ∀ p ∈ tagTokens s, p.1 = p.2 := by
  intro p hp
  unfold tagTokens at hp
  split at hp
  · obtain ⟨t, _, rfl⟩ := List.mem_map.1 hp
    rfl
  · split at hp
    · obtain ⟨t, _, rfl⟩ := List.mem_map.1 hp
      rfl
    · simp at hp
      subst hp
      rfl

theorem tagTokens_contained (s : Str) : ∀ p ∈ tagTokens s, p.1 <:+: p.2 := by
  intro p hp
  rw [tagTokens_fst_eq s p hp]

theorem areaTokens_contained (s : Str) : ∀ p ∈ areaTokens s, p.1 <:+: p.2 := by
  intro p hp
  unfold areaTokens at hp
  split at hp
  · obtain ⟨t, _, rfl⟩ := List.mem_map.1 hp
    exact trimSpace_occurs t
  · split at hp
    · obtain ⟨t, _, rfl⟩ := List.mem_map.1 hp
      exact trimSpace_occurs t
    · simp at hp
      subst hp
      exact List.infix_refl _

/-! ## Containment is kept by later appends -/

theorem not_commaBounded_iff (u : Str) :
    commaBounded u = false ↔ u.head? ≠ some ',' ∧ u.getLast? ≠ some ',' := by
  simp [commaBounded]

theorem appendUnless_keeps (u : Str) (hu : commaBounded u = false) (v chk app : Str)
    (h : u <:+: v) : u <:+: appendUnless v chk app := by
  by_cases hc : chk <:+: v
  · rw [appendUnless_of_contains v chk app hc]
    exact h
  · rw [appendUnless_of_not_contains v chk app hc]
    by_cases hne : u = []
    · subst hne
      exact List.nil_infix
    · obtain ⟨h1, h2⟩ := (not_commaBounded_iff u).1 hu
      exact infix_trim ',' u hne h1 h2 _ (h.trans (List.infix_append' [] v (',' :: app)))

theorem appendUnless_contains (v chk app : Str) (hu : commaBounded chk = false)
    (hca : chk <:+: app) : chk <:+: appendUnless v chk app := by
  by_cases hc : chk <:+: v
  · rw [appendUnless_of_contains v chk app hc]
    exact hc
  · rw [appendUnless_of_not_contains v chk app hc]
    by_cases hne : chk = []
    · subst hne
      exact List.nil_infix
    · obtain ⟨h1, h2⟩ := (not_commaBounded_iff chk).1 hu
      refine infix_trim ',' chk hne h1 h2 _ (hca.trans ?_)
      exact (List.suffix_append (v ++ [',']) app).isInfix.trans (by simp)

theorem mergeTokens_keeps (u : Str) (hu : commaBounded u = false) (l : List (Str × Str)) :
    ∀ v : Str, u <:+: v → u <:+: mergeTokens v l := by
  induction l with
  | nil => intro v h; exact h
  | cons p l ih =>
    intro v h
    rw [mergeTokens_cons]
    exact ih _ (appendUnless_keeps u hu v p.1 p.2 h)

theorem mergeTokens_contains (l : List (Str × Str))
    (hgood : ∀ p ∈ l, commaBounded p.1 = false) (hin : ∀ p ∈ l, p.1 <:+: p.2) :
    ∀ v : Str, ∀ p ∈ l, p.1 <:+: mergeTokens v l := by
  induction l with
  | nil => intro v p hp; simp at hp
  | cons q l ih =>
    intro v p hp
    rw [mergeTokens_cons]
    rcases List.mem_cons.1 hp with e | e
    · subst e
      exact mergeTokens_keeps p.1 (hgood p (by simp)) l _
        (appendUnless_contains v p.1 p.2 (hgood p (by simp)) (hin p (by simp)))
    · exact ih (fun r hr => hgood r (by simp [hr])) (fun r hr => hin r (by simp [hr])) _ p e

theorem mergeTokens_fixed (l : List (Str × Str)) (w : Str) (h : ∀ p ∈ l, p.1 <:+: w) :
    mergeTokens w l = w := by
  induction l with
  | nil => rfl
  | cons q l ih =>
    rw [mergeTokens_cons, appendUnless_of_contains w q.1 q.2 (h q (by simp))]
    exact ih (fun r hr => h r (by simp [hr]))

/-- Merging the same tokens a second time changes nothing, when no tested string
begins or ends with a comma. -/
theorem mergeTokens_idem (l : List (Str × Str))
    (hgood : ∀ p ∈ l, commaBounded p.1 = false) (hin : ∀ p ∈ l, p.1 <:+: p.2) (v : Str) :
    mergeTokens (mergeTokens v l) l = mergeTokens v l :=
  mergeTokens_fixed l _ (mergeTokens_contains l hgood hin v)

/-! ## Non-empty tokens are kept -/

theorem appendUnless_tokens_mono (x : Str) (hx : x ≠ []) (v chk app : Str)
    (h : x ∈ tokens v) : x ∈ tokens (appendUnless v chk app) := by
  by_cases hc : chk <:+: v
  · rw [appendUnless_of_contains v chk app hc]
    exact h
  · rw [appendUnless_of_not_contains v chk app hc]
    unfold tokens at *
    apply mem_split_trim ',' x hx
    rw [split_append_sep]
    exact List.mem_append_left _ h

theorem mergeTokens_tokens_mono (x : Str) (hx : x ≠ []) (l : List (Str × Str)) :
    ∀ v : Str, x ∈ tokens v → x ∈ tokens (mergeTokens v l) := by
  induction l with
  | nil => intro v h; exact h
  | cons p l ih =>
    intro v h
    rw [mergeTokens_cons]
    exact ih _ (appendUnless_tokens_mono x hx v p.1 p.2 h)

/-! ## Facts about `%d` and the seeds -/

theorem digit_char_isDigit (k : Nat) (hk : k < 10) : isDigitC (Char.ofNat (48 + k)) = true := by
  interval_cases k <;> decide

theorem digitsAux_chars (fuel : Nat) : ∀ (n : Nat) (acc : Str),
    ∀ ch ∈ digitsAux fuel n acc, ch ∈ acc ∨ isDigitC ch = true := by
  induction fuel with
  | zero => intro n acc ch h; exact Or.inl h
  | succ fuel ih =>
    intro n acc ch h
    rw [digitsAux] at h
    split at h
    · rcases List.mem_cons.1 h with e | e
      · exact Or.inr (e ▸ digit_char_isDigit _ (Nat.mod_lt _ (by decide)))
      · exact Or.inl e
    · rcases ih _ _ ch h with e | e
      · rcases List.mem_cons.1 e with e1 | e1
        · exact Or.inr (e1 ▸ digit_char_isDigit _ (Nat.mod_lt _ (by decide)))
        · exact Or.inl e1
      · exact Or.inr e

theorem digitsAux_ne_nil (fuel : Nat) : ∀ (n : Nat) (acc : Str),
    digitsAux (fuel + 1) n acc ≠ [] := by
  induction fuel with
  | zero =>
    intro n acc
    rw [digitsAux]
    split
    · simp
    · simp [digitsAux]
  | succ fuel ih =>
    intro n acc
    rw [digitsAux]
    split
    · simp
    · exact ih _ _

theorem formatUint_ne_nil (n : Nat) : FormatUint n ≠ [] := digitsAux_ne_nil n n []

theorem formatInt_ne_nil (x : Int) : FormatInt x ≠ [] := by
  unfold FormatInt
  split
  · simp
  · exact formatUint_ne_nil _

theorem formatInt_chars (x : Int) : ∀ ch ∈ FormatInt x, ch = '-' ∨ isDigitC ch = true := by
  intro ch h
  unfold FormatInt at h
  have hu : ∀ n, ∀ ch ∈ FormatUint n, isDigitC ch = true := by
    intro n ch h
    rcases digitsAux_chars _ _ _ ch h with e | e
    · simp at e
    · exact e
  split at h
  · rcases List.mem_cons.1 h with e | e
    · exact Or.inl e
    · exact Or.inr (hu _ ch e)
  · exact Or.inr (hu _ ch h)

theorem comma_not_mem_formatInt (x : Int) : ',' ∉ FormatInt x := by
  intro h
  rcases formatInt_chars x ',' h with e | e
  · exact absurd e (by decide)
  · exact absurd e (by decide)

theorem wrapInt64_eq (x : Int) (h1 : -(2 ^ 63) ≤ x) (h2 : x < 2 ^ 63) : wrapInt64 x = x := by
  unfold wrapInt64
  omega

theorem trim_cons_sep (c : Char) (s : Str) : Trim (c :: s) c = Trim s c := by
  simp [Trim]

theorem trim_eq_self (c : Char) (s : Str) (hh : s.head? ≠ some c) (hl : s.getLast? ≠ some c) :
    Trim s c = s := by
  rw [trim_eq]
  have h1 : s.dropWhile (· == c) = s := by
    cases s with
    | nil => rfl
    | cons x s =>
      have : x ≠ c := fun e => hh (by simp [e])
      simp [this]
  rw [h1, List.rdropWhile_eq_self_iff]
  intro hne e
  apply hl
  rw [List.getLast?_eq_getLast _ hne]
  simpa using e

theorem seedYear_eq (y : Int) :
    seedYear y = ',' :: [','].intercalate
      ((List.range 12).map (fun i : Nat => FormatInt (wrapInt64 (y - (i : Int))))) := by
  simp [seedYear, List.range, List.range.loop, SprintfSD, List.intercalate, List.intersperse]

theorem seedYear_trim_ne_nil (y : Int) : Trim (seedYear y) ',' ≠ [] := by
  rw [seedYear_eq, trim_cons_sep]
  intro h
  have h0 : FormatInt (wrapInt64 (y - (0 : Nat))) <:+: Trim ([','].intercalate
      ((List.range 12).map (fun i : Nat => FormatInt (wrapInt64 (y - (i : Int)))))) ',' := by
    apply infix_trim ',' _ (formatInt_ne_nil _)
    · intro e
      exact comma_not_mem_formatInt _ (List.mem_of_mem_head? e)
    · intro e
      exact comma_not_mem_formatInt _ (List.mem_of_mem_getLast? e)
    · simp only [List.range, List.range.loop, List.intercalate, List.intersperse, List.map,
        List.flatten]
      exact (List.prefix_append _ _).isInfix
  rw [h] at h0
  exact formatInt_ne_nil _ (List.infix_nil.1 h0)

theorem seedYear_trim (y : Int) (hlo : -(2 ^ 63) + 11 ≤ y) (hhi : y < 2 ^ 63) :
    Trim (seedYear y) ',' = [','].intercalate (yearTokens y) := by
  rw [seedYear_eq, trim_cons_sep]
  have hw : ∀ i : Nat, i < 12 → wrapInt64 (y - i) = y - i := by
    intro i hi
    apply wrapInt64_eq <;> omega
  have e : (List.range 12).map (fun i : Nat => FormatInt (wrapInt64 (y - (i : Int)))) = yearTokens y := by
    simp [List.range, List.range.loop, yearTokens]
    refine ⟨?_, ?_, ?_, ?_, ?_, ?_, ?_, ?_, ?_, ?_, ?_, ?_⟩ <;> congr 1
    · simpa using hw 0 (by decide)
    · simpa using hw 1 (by decide)
    · simpa using hw 2 (by decide)
    · simpa using hw 3 (by decide)
    · simpa using hw 4 (by decide)
    · simpa using hw 5 (by decide)
    · simpa using hw 6 (by decide)
    · simpa using hw 7 (by decide)
    · simpa using hw 8 (by decide)
    · simpa using hw 9 (by decide)
    · simpa using hw 10 (by decide)
    · simpa using hw 11 (by decide)
  rw [e]
  apply trim_eq_self
  · intro h
    have : ',' ∈ FormatInt y := by
      apply List.mem_of_mem_head?
      cases hf : FormatInt y with
      | nil => exact absurd hf (formatInt_ne_nil _)
      | cons a l =>
        simp [yearTokens, List.intercalate, List.intersperse, hf] at h
        simp [h]
    exact comma_not_mem_formatInt _ this
  · intro h
    have : ',' ∈ FormatInt (y - 11) := by
      have hne := formatInt_ne_nil (y - 11)
      simp only [yearTokens, List.intercalate, List.intersperse, List.flatten,
        List.append_nil] at h
      repeat rw [List.getLast?_append_of_ne_nil _ (by simp [hne])] at h
      exact List.mem_of_mem_getLast? h
    exact comma_not_mem_formatInt _ this

/-! ## The document and the store -/

theorem loadKeyword_of_year_ne (y : Int) (doc : Vocab) (h : doc.Year ≠ []) :
    loadKeyword y doc = doc := by
  unfold loadKeyword
  rw [if_neg h]

theorem loadKeyword_of_year_nil (y : Int) (doc : Vocab) (h : doc.Year = []) :
    loadKeyword y doc =
      { Category := [], Tag := [], Area := [], Language := [],
        Year := Trim (seedYear y) ',', Initial := Trim seedInitial ',',
        Sort_ := "Time,Db,Score".toList } := by
  unfold loadKeyword
  rw [if_pos h]

theorem loadKeyword_year_ne (y : Int) (doc : Vocab) : (loadKeyword y doc).Year ≠ [] := by
  by_cases h : doc.Year = []
  · rw [loadKeyword_of_year_nil y doc h]
    intro e
    dsimp only at e
    exact seedYear_trim_ne_nil y e
  · rw [loadKeyword_of_year_ne y doc h]
    exact h

theorem mergeKeyword_eq (k : Vocab) (r : SearchInfo) :
    mergeKeyword k r =
      { Category := mergeTokens k.Category [(r.CName, r.CName)],
        Tag := mergeTokens k.Tag (tagTokens r.ClassTag),
        Area := mergeTokens k.Area (areaTokens r.Area),
        Language := mergeTokens k.Language (tagTokens r.Language),
        Year := k.Year,
        Initial := k.Initial,
        Sort_ := k.Sort_ } := by
  unfold mergeKeyword
  simp only [mergeTag_eq, mergeArea_eq, mergeLanguage_eq, mergeCategory_eq]

theorem searchKeywordDoc_year_ne (y : Int) (doc : Vocab) (r : SearchInfo) :
    (searchKeywordDoc y doc r).Year ≠ [] := by
  unfold searchKeywordDoc
  rw [mergeKeyword_eq]
  exact loadKeyword_year_ne y doc

theorem searchKeywordDoc_twice (y1 y2 : Int) (doc : Vocab) (r1 r2 : SearchInfo) :
    searchKeywordDoc y2 (searchKeywordDoc y1 doc r1) r2 =
      mergeKeyword (mergeKeyword (loadKeyword y1 doc) r1) r2 := by
  have h := loadKeyword_of_year_ne y2 _ (searchKeywordDoc_year_ne y1 doc r1)
  conv_lhs => rw [searchKeywordDoc, h]
  rfl

theorem searchKeyword_keywords (y : Int) (st : Store) (r : SearchInfo) :
    (SearchKeyword y st r).keywords r.Pid = searchKeywordDoc y (st.keywords r.Pid) r := by
  simp [SearchKeyword]

theorem searchKeyword_keywords_other (y : Int) (st : Store) (r : SearchInfo) (pid : Int)
    (h : pid ≠ r.Pid) : (SearchKeyword y st r).keywords pid = st.keywords pid := by
  simp [SearchKeyword, Function.update_noteq h]

theorem searchKeyword_twice_keywords (y : Int) (st : Store) (r1 r2 : SearchInfo)
    (h : r1.Pid = r2.Pid) :
    (SearchKeyword y (SearchKeyword y st r1) r2).keywords r1.Pid =
      mergeKeyword (mergeKeyword (loadKeyword y (st.keywords r1.Pid)) r1) r2 := by
  rw [h, searchKeyword_keywords, ← h, searchKeyword_keywords, searchKeywordDoc_twice]

theorem mergeKeyword_idem (k : Vocab) (r : SearchInfo)
    (hC : commaBounded r.CName = false)
    (hT : ∀ p ∈ tagTokens r.ClassTag, commaBounded p.1 = false)
    (hA : ∀ p ∈ areaTokens r.Area, commaBounded p.1 = false)
    (hL : ∀ p ∈ tagTokens r.Language, commaBounded p.1 = false) :
    mergeKeyword (mergeKeyword k r) r = mergeKeyword k r := by
  rw [mergeKeyword_eq (mergeKeyword k r) r, mergeKeyword_eq k r]
  simp only
  rw [mergeTokens_idem _ hT (tagTokens_contained _), mergeTokens_idem _ hA (areaTokens_contained _),
    mergeTokens_idem _ hL (tagTokens_contained _),
    mergeTokens_idem [(r.CName, r.CName)] (by simpa using hC)
      (by intro p hp; simp at hp; subst hp; exact List.infix_refl _)]

/-! ## The tokens after a merge -/

theorem baseTokens_subset (v : Str) : ∀ x ∈ baseTokens v, x ∈ Split v ',' := by
  induction v with
  | nil => intro x h; simp [baseTokens] at h
  | cons y v ih =>
    intro x h
    by_cases hy : y = ','
    · subst hy
      have e : baseTokens (',' :: v) = baseTokens v := by simp [baseTokens]
      rw [e] at h
      rw [split_cons_sep]
      exact List.mem_cons_of_mem _ (ih x h)
    · have e : baseTokens (y :: v) = Split (y :: v) ',' := by simp [baseTokens, hy]
      rw [e] at h
      exact h

theorem mem_baseTokens_of_ne_nil (x : Str) (hx : x ≠ []) (v : Str) (h : x ∈ Split v ',') :
    x ∈ baseTokens v := by
  unfold baseTokens
  have h1 := mem_split_dropWhile ',' x hx v h
  split
  · rename_i e
    rw [e] at h1
    simp [Split] at h1
    exact absurd h1 hx
  · exact h1

theorem infix_of_mem_baseTokens (u v : Str) (h : ∃ x ∈ baseTokens v, u <:+: x) : u <:+: v := by
  obtain ⟨x, hx, hux⟩ := h
  exact hux.trans (mem_split_occurs v ',' x (baseTokens_subset v x hx))

theorem exists_baseTokens_of_occurs (u v : Str) (hc : ',' ∉ u) (hne : u ≠ [])
    (h : u <:+: v) : ∃ x ∈ baseTokens v, u <:+: x := by
  obtain ⟨x, hx, hux⟩ := (infix_iff_mem_split ',' u hc v).1 h
  have hxne : x ≠ [] := by
    intro e
    rw [e] at hux
    exact hne (List.infix_nil.1 hux)
  exact ⟨x, mem_baseTokens_of_ne_nil x hxne v hx, hux⟩

theorem head_ne_of_not_mem (c : Char) (a : Str) (hc : c ∉ a) : a.head? ≠ some c :=
  fun e => hc (List.mem_of_mem_head? e)

theorem dropWhile_eq_self_of_head (c : Char) (s : Str) (h : s.head? ≠ some c) :
    s.dropWhile (· == c) = s := by
  cases s with
  | nil => rfl
  | cons x s =>
    have : x ≠ c := fun e => h (by simp [e])
    simp [this]

theorem dropWhile_head_ne (c : Char) (s : Str) : (s.dropWhile (· == c)).head? ≠ some c := by
  induction s with
  | nil => simp
  | cons x s ih =>
    by_cases hx : x = c
    · subst hx
      simpa using ih
    · simp [hx]

/-- The tokens after a token without a comma has been appended. -/
theorem split_trim_append (v a : Str) (hne : a ≠ []) (hc : ',' ∉ a) :
    Split (Trim (v ++ ',' :: a) ',') ',' = baseTokens v ++ [a] := by
  rw [trim_append_token ',' v a hne hc]
  unfold baseTokens
  split
  · simp [split_of_not_mem a ',' hc]
  · rw [split_append_sep, split_of_not_mem a ',' hc]

theorem baseTokens_trim_append (v a : Str) (hne : a ≠ []) (hc : ',' ∉ a) :
    baseTokens (Trim (v ++ ',' :: a) ',') = baseTokens v ++ [a] := by
  rw [← split_trim_append v a hne hc]
  have hd : (Trim (v ++ ',' :: a) ',').dropWhile (· == ',') = Trim (v ++ ',' :: a) ',' := by
    apply dropWhile_eq_self_of_head
    rw [trim_append_token ',' v a hne hc]
    split
    · exact head_ne_of_not_mem ',' a hc
    · rename_i e
      cases hv : v.dropWhile (· == ',') with
      | nil => exact absurd hv e
      | cons x t =>
        have := dropWhile_head_ne ',' v
        rw [hv] at this
        simpa using this
  have hn : Trim (v ++ ',' :: a) ',' ≠ [] := by
    rw [trim_append_token ',' v a hne hc]
    split
    · exact hne
    · simp
  unfold baseTokens
  rw [hd, if_neg hn]

/-! ## The claims about `SearchKeyword` -/

/-- C1 (as amended): merging the same record a second time leaves the whole store, and so
every field of the vocabulary, as the first merge left it, provided that no string
tested for containment (the category name, each piece of the tag and language values,
each piece of the area value without its outer white space) begins or ends with a
comma. -/
theorem searchKeyword_idempotent (y : Int) (st : Store) (r : SearchInfo)
    (hC : commaBounded r.CName = false)
    (hT : ∀ p ∈ tagTokens r.ClassTag, commaBounded p.1 = false)
    (hA : ∀ p ∈ areaTokens r.Area, commaBounded p.1 = false)
    (hL : ∀ p ∈ tagTokens r.Language, commaBounded p.1 = false) :
    SearchKeyword y (SearchKeyword y st r) r = SearchKeyword y st r := by
  have hk : searchKeywordDoc y (searchKeywordDoc y (st.keywords r.Pid) r) r =
      searchKeywordDoc y (st.keywords r.Pid) r := by
    rw [searchKeywordDoc_twice, mergeKeyword_idem _ r hC hT hA hL]
    rfl
  have h1 := searchKeyword_keywords y st r
  unfold SearchKeyword at *
  simp only [Function.update_same, Function.update_idem, hk]

/-- C1, witness: a record with the values `Action/Comedy`, `USA / Canada` and
`English,French` merged twice into an empty store. -/
theorem searchKeyword_idempotent_witness :
    SearchKeyword 2024 (SearchKeyword 2024 Store.empty
        { SearchInfo.blank with
          Pid := 1, CName := "Film".toList, ClassTag := "Action/Comedy".toList,
          Area := "USA / Canada".toList, Language := "English,French".toList })
        { SearchInfo.blank with
          Pid := 1, CName := "Film".toList, ClassTag := "Action/Comedy".toList,
          Area := "USA / Canada".toList, Language := "English,French".toList } =
      SearchKeyword 2024 Store.empty
        { SearchInfo.blank with
          Pid := 1, CName := "Film".toList, ClassTag := "Action/Comedy".toList,
          Area := "USA / Canada".toList, Language := "English,French".toList } :=
  searchKeyword_idempotent 2024 Store.empty _ (by decide) (by decide) (by decide) (by decide)

/-- C1, counterexample: a category name that begins with a comma is appended again by the
second merge, since the comma is trimmed from the stored string but not from the
string tested; so is a category name that ends with a comma. -/
theorem searchKeyword_not_idempotent :
    (((SearchKeyword 2024 Store.empty
        { SearchInfo.blank with Pid := 1, CName := ",a".toList }).keywords 1).Category
      = "a".toList ∧
     ((SearchKeyword 2024 (SearchKeyword 2024 Store.empty
        { SearchInfo.blank with Pid := 1, CName := ",a".toList })
        { SearchInfo.blank with Pid := 1, CName := ",a".toList }).keywords 1).Category
      = "a,,a".toList) ∧
    (((SearchKeyword 2024 Store.empty
        { SearchInfo.blank with Pid := 1, CName := "a,".toList }).keywords 1).Category
      = "a".toList ∧
     ((SearchKeyword 2024 (SearchKeyword 2024 Store.empty
        { SearchInfo.blank with Pid := 1, CName := "a,".toList })
        { SearchInfo.blank with Pid := 1, CName := "a,".toList }).keywords 1).Category
      = "a,a".toList) := by
  decide

/-- C9: the area value `USA / Canada` merged into an empty store gives the Area facet
`USA , Canada`: the white space is trimmed in the containment test only, the token is
appended as it was split. -/
theorem searchKeyword_area_untrimmed :
    ((SearchKeyword 2024 Store.empty
        { SearchInfo.blank with Pid := 1, Area := "USA / Canada".toList }).keywords 1).Area
      = "USA , Canada".toList ∧
    ((SearchKeyword 2024 Store.empty
        { SearchInfo.blank with Pid := 1, Area := "USA / Canada".toList }).keywords 1).Area
      ≠ "USA,Canada".toList := by
  decide

/-- C10: when the stored document has a non-empty `Year`, the merge leaves `Year`,
`Initial` and `Sort` as they were stored, whatever the record and the current year;
the documents of the other parent categories, the detail and the basic snapshots are
not touched either. -/
theorem searchKeyword_seed_fields_fixed (y : Int) (st : Store) (r : SearchInfo)
    (hy : (st.keywords r.Pid).Year ≠ []) :
    ((SearchKeyword y st r).keywords r.Pid).Year = (st.keywords r.Pid).Year ∧
    ((SearchKeyword y st r).keywords r.Pid).Initial = (st.keywords r.Pid).Initial ∧
    ((SearchKeyword y st r).keywords r.Pid).Sort_ = (st.keywords r.Pid).Sort_ ∧
    (∀ pid, pid ≠ r.Pid → (SearchKeyword y st r).keywords pid = st.keywords pid) ∧
    (SearchKeyword y st r).details = st.details ∧
    (SearchKeyword y st r).basics = st.basics := by
  rw [searchKeyword_keywords, searchKeywordDoc, loadKeyword_of_year_ne y _ hy, mergeKeyword_eq]
  exact ⟨rfl, rfl, rfl, fun pid h => searchKeyword_keywords_other y st r pid h, rfl, rfl⟩

/-- C10, witness: a document seeded in 2013 and a record of the year 2030 with the initial
`Q`, merged when the current year is 2031. -/
theorem searchKeyword_seed_fields_fixed_witness :
    ((SearchKeyword 2031
        { Store.empty with
          keywords := fun _ =>
            { Vocab.empty with
              Year := "2013,2012".toList, Initial := "A,B".toList, Sort_ := "Time".toList } }
        { SearchInfo.blank with Pid := 1, Year := 2030, Initial := "Q".toList }).keywords 1).Year
      = "2013,2012".toList :=
  (searchKeyword_seed_fields_fixed 2031
    { Store.empty with
      keywords := fun _ =>
        { Vocab.empty with
          Year := "2013,2012".toList, Initial := "A,B".toList, Sort_ := "Time".toList } }
    { SearchInfo.blank with Pid := 1, Year := 2030, Initial := "Q".toList } (by decide)).1

/-! ## Seeding and the two-token merge -/

theorem commaBounded_trim (s : Str) : commaBounded (Trim s ',') = false := by
  rw [not_commaBounded_iff, trim_eq]
  constructor
  · have hp : List.rdropWhile (· == ',') (s.dropWhile (· == ',')) <+: s.dropWhile (· == ',') :=
      List.rdropWhile_prefix _ _
    have hd := dropWhile_head_ne ',' s
    cases hr : List.rdropWhile (· == ',') (s.dropWhile (· == ',')) with
    | nil => simp
    | cons x t =>
      rw [hr] at hp
      obtain ⟨q, hq⟩ := hp
      rw [← hq] at hd
      simpa using hd
  · intro h
    have hne : List.rdropWhile (· == ',') (s.dropWhile (· == ',')) ≠ [] := by
      intro e
      rw [e] at h
      simp at h
    have := List.rdropWhile_last_not (· == ',') (s.dropWhile (· == ',')) hne
    rw [List.getLast?_eq_getLast _ hne] at h
    simp at h
    simp [h] at this

theorem split_yearTokens (y : Int) : Split ([','].intercalate (yearTokens y)) ',' = yearTokens y := by
  simp only [yearTokens, List.intercalate, List.intersperse, List.flatten, List.append_nil,
    List.singleton_append, split_append_sep, split_of_not_mem _ _ (comma_not_mem_formatInt _)]

theorem seedInitial_trim :
    Trim seedInitial ',' = "A,B,C,D,E,F,G,H,I,J,K,L,M,N,O,P,Q,R,S,T,U,V,W,X,Y,Z".toList := by
  decide

theorem loadKeyword_of_year_nil_eq (y : Int) (doc : Vocab) (h : doc.Year = []) (a b : Str)
    (ha : Trim (seedYear y) ',' = a) (hb : Trim seedInitial ',' = b) :
    loadKeyword y doc =
      { Category := [], Tag := [], Area := [], Language := [],
        Year := a, Initial := b, Sort_ := "Time,Db,Score".toList } := by
  subst ha
  subst hb
  exact loadKeyword_of_year_nil y doc h

/-- C4: when the document read has an empty `Year` (in particular when the stored hash is
empty), the vocabulary built before the merge has as `Year` the decimal renderings of
`y, y-1, ..., y-11` joined by commas in that order, with no comma in front or behind,
as `Initial` the 26 letters `A` to `Z` joined by commas, as `Sort` the string
`Time,Db,Score`, and empty Category, Tag, Area and Language; `y` is the current year,
any `int` from which 11 can be subtracted without overflow. -/
theorem loadKeyword_seeded (y : Int) (hlo : -(2 ^ 63) + 11 ≤ y) (hhi : y < 2 ^ 63)
    (doc : Vocab) (hdoc : doc.Year = []) :
    loadKeyword y doc =
      { Category := [], Tag := [], Area := [], Language := [],
        Year := [','].intercalate (yearTokens y),
        Initial := "A,B,C,D,E,F,G,H,I,J,K,L,M,N,O,P,Q,R,S,T,U,V,W,X,Y,Z".toList,
        Sort_ := "Time,Db,Score".toList } ∧
    tokens (loadKeyword y doc).Year = yearTokens y ∧
    (yearTokens y).length = 12 ∧
    commaBounded (loadKeyword y doc).Year = false := by
  have e := loadKeyword_of_year_nil_eq y doc hdoc _ _ (seedYear_trim y hlo hhi) seedInitial_trim
  refine ⟨e, ?_, rfl, ?_⟩
  · rw [e]
    unfold tokens
    dsimp only
    exact split_yearTokens y
  · rw [loadKeyword_of_year_nil y doc hdoc]
    dsimp only
    exact commaBounded_trim _

/-- C4, witness: the vocabulary seeded in the year 2024. -/
theorem loadKeyword_seeded_witness :
    (loadKeyword 2024 Vocab.empty).Year =
      "2024,2023,2022,2021,2020,2019,2018,2017,2016,2015,2014,2013".toList ∧
    (loadKeyword 2024 Vocab.empty).Initial =
      "A,B,C,D,E,F,G,H,I,J,K,L,M,N,O,P,Q,R,S,T,U,V,W,X,Y,Z".toList :=
  have h := (loadKeyword_seeded 2024 (by decide) (by decide) Vocab.empty rfl).1
  ⟨h ▸ by decide, h ▸ rfl⟩

theorem contains_singleton (s : Str) (c : Char) : Contains s [c] = true ↔ c ∈ s := by
  rw [contains_iff]
  induction s with
  | nil => simp
  | cons x s ih =>
    rw [List.infix_cons_iff, ih, List.mem_cons, List.cons_prefix_cons]
    simp

theorem trimSpace_eq_self (a : Str) (h : noOuterSpace a = true) : TrimSpace a = a := by
  unfold noOuterSpace at h
  simp only [Bool.and_eq_true, Bool.not_eq_true', Option.any] at h
  unfold TrimSpace
  have h1 : a.dropWhile isSpace = a := by
    cases a with
    | nil => rfl
    | cons x t =>
      have : isSpace x = false := by simpa using h.1
      simp [this]
  have h2 : List.rdropWhile isSpace a = a := by
    rw [List.rdropWhile_eq_self_iff]
    intro hne
    have := h.2
    rw [List.getLast?_eq_getLast _ hne] at this
    simpa using this
  rw [h1]
  exact h2

theorem tagTokens_slash (a b : Str) (ha : '/' ∉ a) (hb : '/' ∉ b) :
    tagTokens (a ++ '/' :: b) = [(a, a), (b, b)] := by
  have h : Contains (a ++ '/' :: b) ['/'] = true := (contains_singleton _ _).2 (by simp)
  unfold tagTokens
  rw [if_pos h, split_append_sep, split_of_not_mem a _ ha, split_of_not_mem b _ hb]
  rfl

theorem tagTokens_comma (a b : Str) (ha1 : '/' ∉ a) (hb1 : '/' ∉ b) (ha : ',' ∉ a)
    (hb : ',' ∉ b) : tagTokens (a ++ ',' :: b) = [(a, a), (b, b)] := by
  have h1 : ¬ Contains (a ++ ',' :: b) ['/'] = true := by
    rw [contains_singleton]
    simp [ha1, hb1]
  have h : Contains (a ++ ',' :: b) [','] = true := (contains_singleton _ _).2 (by simp)
  unfold tagTokens
  rw [if_neg h1, if_pos h, split_append_sep, split_of_not_mem a _ ha, split_of_not_mem b _ hb]
  rfl

theorem tagTokens_single (a : Str) (ha1 : '/' ∉ a) (ha : ',' ∉ a) : tagTokens a = [(a, a)] := by
  have h1 : ¬ Contains a ['/'] = true := by rw [contains_singleton]; exact ha1
  have h2 : ¬ Contains a [','] = true := by rw [contains_singleton]; exact ha
  unfold tagTokens
  rw [if_neg h1, if_neg h2]

theorem areaTokens_slash (a b : Str) (ha : '/' ∉ a) (hb : '/' ∉ b)
    (hsa : noOuterSpace a = true) (hsb : noOuterSpace b = true) :
    areaTokens (a ++ '/' :: b) = [(a, a), (b, b)] := by
  have h : Contains (a ++ '/' :: b) ['/'] = true := (contains_singleton _ _).2 (by simp)
  unfold areaTokens
  rw [if_pos h, split_append_sep, split_of_not_mem a _ ha, split_of_not_mem b _ hb]
  simp [trimSpace_eq_self a hsa, trimSpace_eq_self b hsb]

theorem areaTokens_comma (a b : Str) (ha1 : '/' ∉ a) (hb1 : '/' ∉ b) (ha : ',' ∉ a)
    (hb : ',' ∉ b) (hsa : noOuterSpace a = true) (hsb : noOuterSpace b = true) :
    areaTokens (a ++ ',' :: b) = [(a, a), (b, b)] := by
  have h1 : ¬ Contains (a ++ ',' :: b) ['/'] = true := by
    rw [contains_singleton]
    simp [ha1, hb1]
  have h : Contains (a ++ ',' :: b) [','] = true := (contains_singleton _ _).2 (by simp)
  unfold areaTokens
  rw [if_neg h1, if_pos h, split_append_sep, split_of_not_mem a _ ha, split_of_not_mem b _ hb]
  simp [trimSpace_eq_self a hsa, trimSpace_eq_self b hsb]

theorem areaTokens_single (a : Str) (ha1 : '/' ∉ a) (ha : ',' ∉ a) : areaTokens a = [(a, a)] := by
  have h1 : ¬ Contains a ['/'] = true := by rw [contains_singleton]; exact ha1
  have h2 : ¬ Contains a [','] = true := by rw [contains_singleton]; exact ha
  unfold areaTokens
  rw [if_neg h1, if_neg h2]

theorem mergeTokens_nil_single (a : Str) (hne : a ≠ []) (ha : ',' ∉ a) :
    mergeTokens [] [(a, a)] = a := by
  have h : ¬ a <:+: [] := fun e => hne (List.infix_nil.1 e)
  rw [mergeTokens_cons, mergeTokens_nil, appendUnless_of_not_contains _ _ _ h]
  have := trim_append_token ',' [] a hne ha
  simpa using this

theorem mergeTokens_nil_pair (a b : Str) (hne : a ≠ []) (hnb : b ≠ []) (ha : ',' ∉ a)
    (hb : ',' ∉ b) (hab : Contains a b = false) :
    mergeTokens [] [(a, a), (b, b)] = a ++ ',' :: b := by
  have h : ¬ a <:+: [] := fun e => hne (List.infix_nil.1 e)
  have h2 : ¬ b <:+: a := (contains_false_iff a b).1 hab
  rw [mergeTokens_cons, appendUnless_of_not_contains _ _ _ h]
  have e1 : Trim ([] ++ ',' :: a) ',' = a := by
    have := trim_append_token ',' [] a hne ha
    simpa using this
  rw [e1, mergeTokens_cons, mergeTokens_nil, appendUnless_of_not_contains _ _ _ h2,
    trim_append_token ',' a b hnb hb,
    dropWhile_eq_self_of_head ',' a (head_ne_of_not_mem ',' a ha), if_neg hne]

theorem searchKeyword_fresh (y : Int) (st : Store) (r : SearchInfo)
    (hy : (st.keywords r.Pid).Year = []) :
    ((SearchKeyword y st r).keywords r.Pid).Tag = mergeTokens [] (tagTokens r.ClassTag) ∧
    ((SearchKeyword y st r).keywords r.Pid).Area = mergeTokens [] (areaTokens r.Area) ∧
    ((SearchKeyword y st r).keywords r.Pid).Language =
      mergeTokens [] (tagTokens r.Language) := by
  rw [searchKeyword_keywords, searchKeywordDoc, loadKeyword_of_year_nil y _ hy, mergeKeyword_eq]
  exact ⟨rfl, rfl, rfl⟩

/-- C7: let `a` and `b` be non-empty strings without `/` and `,` and without outer white
space, `b` not occurring in `a`.  Merged into a freshly seeded vocabulary (the stored
`Year` is empty), a record whose Area (ClassTag, Language) is `a/b` gives the Area
(Tag, Language) facet `a,b`; so does the value `a,b`; and the value `a` gives `a`. -/
theorem searchKeyword_two_tokens (a b : Str) (hne : a ≠ []) (hnb : b ≠ [])
    (ha1 : '/' ∉ a) (ha2 : ',' ∉ a) (hb1 : '/' ∉ b) (hb2 : ',' ∉ b)
    (hsa : noOuterSpace a = true) (hsb : noOuterSpace b = true)
    (hab : Contains a b = false)
    (y : Int) (st : Store) (r : SearchInfo) (hy : (st.keywords r.Pid).Year = []) :
    (r.Area = a ++ '/' :: b → ((SearchKeyword y st r).keywords r.Pid).Area = a ++ ',' :: b) ∧
    (r.Area = a ++ ',' :: b → ((SearchKeyword y st r).keywords r.Pid).Area = a ++ ',' :: b) ∧
    (r.Area = a → ((SearchKeyword y st r).keywords r.Pid).Area = a) ∧
    (r.ClassTag = a ++ '/' :: b →
      ((SearchKeyword y st r).keywords r.Pid).Tag = a ++ ',' :: b) ∧
    (r.ClassTag = a ++ ',' :: b →
      ((SearchKeyword y st r).keywords r.Pid).Tag = a ++ ',' :: b) ∧
    (r.ClassTag = a → ((SearchKeyword y st r).keywords r.Pid).Tag = a) ∧
    (r.Language = a ++ '/' :: b →
      ((SearchKeyword y st r).keywords r.Pid).Language = a ++ ',' :: b) ∧
    (r.Language = a ++ ',' :: b →
      ((SearchKeyword y st r).keywords r.Pid).Language = a ++ ',' :: b) ∧
    (r.Language = a → ((SearchKeyword y st r).keywords r.Pid).Language = a) := by
  obtain ⟨hT, hA, hL⟩ := searchKeyword_fresh y st r hy
  have hp := mergeTokens_nil_pair a b hne hnb ha2 hb2 hab
  have hs := mergeTokens_nil_single a hne ha2
  refine ⟨?_, ?_, ?_, ?_, ?_, ?_, ?_, ?_, ?_⟩
  · intro e; rw [hA, e, areaTokens_slash a b ha1 hb1 hsa hsb, hp]
  · intro e; rw [hA, e, areaTokens_comma a b ha1 hb1 ha2 hb2 hsa hsb, hp]
  · intro e; rw [hA, e, areaTokens_single a ha1 ha2, hs]
  · intro e; rw [hT, e, tagTokens_slash a b ha1 hb1, hp]
  · intro e; rw [hT, e, tagTokens_comma a b ha1 hb1 ha2 hb2, hp]
  · intro e; rw [hT, e, tagTokens_single a ha1 ha2, hs]
  · intro e; rw [hL, e, tagTokens_slash a b ha1 hb1, hp]
  · intro e; rw [hL, e, tagTokens_comma a b ha1 hb1 ha2 hb2, hp]
  · intro e; rw [hL, e, tagTokens_single a ha1 ha2, hs]

/-- C7, witness: the area `USA/Canada` merged into an empty store gives `USA,Canada`. -/
theorem searchKeyword_two_tokens_witness :
    ((SearchKeyword 2024 Store.empty
        { SearchInfo.blank with Pid := 1, Area := "USA/Canada".toList }).keywords 1).Area
      = "USA,Canada".toList :=
  (searchKeyword_two_tokens "USA".toList "Canada".toList (by decide) (by decide) (by decide)
    (by decide) (by decide) (by decide) (by decide) (by decide) (by decide) 2024 Store.empty
    { SearchInfo.blank with Pid := 1, Area := "USA/Canada".toList } rfl).1 rfl

/-! ## `ConvertSearchInfo` -/

theorem convertSearchInfo_time (env : Env) (detail : MovieDetail) :
    (ConvertSearchInfo env detail).Time = (ParseInLocation detail.UpdateTime env.Local).Unix := by
  unfold ConvertSearchInfo
  rfl

theorem convertSearchInfo_year_eq (env : Env) (detail : MovieDetail) :
    (ConvertSearchInfo env detail).Year =
      if (ParseInt detail.Year).2 ≠ none then 0 else (ParseInt detail.Year).1 := by
  unfold ConvertSearchInfo
  rfl

/-- C3 (as amended): when the update time does not parse in the layout `2006-01-02 15:04:05`,
the `Time` of the search record is the Unix time of the zero `time.Time` (January 1 of
the year 1, 00:00:00 UTC), which is -62135596800. -/
theorem convertSearchInfo_time_of_bad_date (env : Env) (detail : MovieDetail)
    (h : parseDateTime detail.UpdateTime env.Local = none) :
    (ConvertSearchInfo env detail).Time = -62135596800 := by
  rw [convertSearchInfo_time]
  unfold ParseInLocation
  rw [h]
  decide

/-- C3, witness: the update time `2024-02-30 03:04:05`, a day that does not exist. -/
theorem convertSearchInfo_time_of_bad_date_witness :
    (ConvertSearchInfo Env.example
      { MovieDetail.blank with UpdateTime := "2024-02-30 03:04:05".toList }).Time
      = -62135596800 :=
  convertSearchInfo_time_of_bad_date Env.example
    { MovieDetail.blank with UpdateTime := "2024-02-30 03:04:05".toList } (by decide)

/-- C3, counterexample: the update time `not-a-date` does not parse, and the `Time` of the
search record is -62135596800, not 0. -/
theorem convertSearchInfo_time_not_zero :
    parseDateTime "not-a-date".toList Location.utc = none ∧
    (ConvertSearchInfo Env.example
      { MovieDetail.blank with UpdateTime := "not-a-date".toList }).Time = -62135596800 ∧
    (ConvertSearchInfo Env.example
      { MovieDetail.blank with UpdateTime := "not-a-date".toList }).Time ≠ 0 := by
  decide

/-! ## `SaveDetails` -/

theorem saveDetailsLoop_last (env : Env) (world : Nat → Step) (list : List MovieDetail) :
    ∀ (i : Nat) (acc : Store × Option Error) (detail : MovieDetail),
      (saveDetailsLoop env world i (list ++ [detail]) acc).2 =
        (world (i + list.length)).detailErr := by
  induction list with
  | nil => intro i acc detail; rfl
  | cons d list ih =>
    intro i acc detail
    rw [List.cons_append, saveDetailsLoop, ih]
    congr 2
    simp only [List.length_cons]
    omega

/-- C5 (as amended): `SaveDetails` returns the outcome of the detail write of the last record
of the batch, whatever the outcome of the writes before it, and `nil` for an empty
batch. -/
theorem saveDetails_returns_last (env : Env) (world : Nat → Step) (st : Store)
    (list : List MovieDetail) (detail : MovieDetail) :
    (SaveDetails env world st (list ++ [detail])).2 = (world list.length).detailErr ∧
    (SaveDetails env world st []).2 = none := by
  constructor
  · unfold SaveDetails
    simp only [saveDetailsLoop_last, Nat.zero_add]
  · rfl

/-- C5, counterexample: in a batch of two records the detail write of the first fails and
that of the second succeeds; `SaveDetails` returns `nil`. -/
theorem saveDetails_drops_error :
    (SaveDetails Env.example
      (fun i =>
        if i = 0 then
          { detailErr := some "connection refused", basicOk := true, keywordOk := true,
            year := 2024 }
        else { detailErr := none, basicOk := true, keywordOk := true, year := 2024 })
      Store.empty
      [{ MovieDetail.blank with Id := 1 }, { MovieDetail.blank with Id := 2 }]).2 = none := by
  decide

/-! ## `strconv.ParseInt` -/

theorem isDigitC_bounds (c : Char) (h : isDigitC c = true) : 48 ≤ c.toNat ∧ c.toNat ≤ 57 := by
  unfold isDigitC at h
  simp only [Bool.and_eq_true, decide_eq_true_eq] at h
  obtain ⟨h1, h2⟩ := h
  rw [Char.le_def] at h1 h2
  constructor
  · exact h1
  · exact h2

/-- The value of a digit string read after the value `n`. -/
theorem digits_foldl_ge (s : Str) : ∀ n : Nat,
    n ≤ s.foldl (fun n c => n * 10 + (c.toNat - 48)) n := by
  induction s with
  | nil => intro n; exact Nat.le_refl _
  | cons c s ih =>
    intro n
    rw [List.foldl_cons]
    exact Nat.le_trans (by omega) (ih _)

theorem parseUintLoop_cons (c : Char) (s : Str) (n : Nat) (hc : isDigitC c = true) :
    parseUintLoop (c :: s) n =
      if n ≥ (2 ^ 64 - 1) / 10 + 1 then (2 ^ 64 - 1, some NumError.ErrRange)
      else if (n * 10 % 2 ^ 64 + (c.toNat - 48)) % 2 ^ 64 < n * 10 % 2 ^ 64 ∨
          (n * 10 % 2 ^ 64 + (c.toNat - 48)) % 2 ^ 64 > 2 ^ 64 - 1 then
        (2 ^ 64 - 1, some NumError.ErrRange)
      else parseUintLoop s ((n * 10 % 2 ^ 64 + (c.toNat - 48)) % 2 ^ 64) := by
  rw [parseUintLoop]
  simp only [hc, Bool.not_true, Bool.false_eq_true, if_false, Bool.or_eq_true, decide_eq_true_eq]

theorem parseUintLoop_spec (s : Str) : ∀ n : Nat, n < 2 ^ 64 →
    (s.all isDigitC = true →
      s.foldl (fun n c => n * 10 + (c.toNat - 48)) n < 2 ^ 64 →
      parseUintLoop s n = (s.foldl (fun n c => n * 10 + (c.toNat - 48)) n, none)) ∧
    (s.all isDigitC = true →
      2 ^ 64 ≤ s.foldl (fun n c => n * 10 + (c.toNat - 48)) n →
      parseUintLoop s n = (2 ^ 64 - 1, some NumError.ErrRange)) ∧
    (s.all isDigitC = false →
      (parseUintLoop s n).2 = some NumError.ErrSyntax ∨
      parseUintLoop s n = (2 ^ 64 - 1, some NumError.ErrRange)) := by
  induction s with
  | nil =>
    intro n hn
    refine ⟨fun _ _ => rfl, fun _ h => ?_, fun h => ?_⟩
    · simp at h
      omega
    · simp at h
  | cons c s ih =>
    intro n hn
    by_cases hc : isDigitC c = true
    · have hb := isDigitC_bounds c hc
      rw [parseUintLoop_cons c s n hc, List.foldl_cons]
      by_cases hcut : n ≥ (2 ^ 64 - 1) / 10 + 1
      · rw [if_pos hcut]
        have hbig : 2 ^ 64 ≤ s.foldl (fun n c => n * 10 + (c.toNat - 48))
            (n * 10 + (c.toNat - 48)) := by
          refine Nat.le_trans ?_ (digits_foldl_ge s _)
          omega
        refine ⟨fun _ h => ?_, fun _ _ => rfl, fun _ => Or.inr rfl⟩
        omega
      · rw [if_neg hcut]
        have hn0 : n * 10 % 2 ^ 64 = n * 10 := Nat.mod_eq_of_lt (by omega)
        rw [hn0]
        by_cases hov : n * 10 + (c.toNat - 48) < 2 ^ 64
        · have hn1 : (n * 10 + (c.toNat - 48)) % 2 ^ 64 = n * 10 + (c.toNat - 48) :=
            Nat.mod_eq_of_lt hov
          rw [hn1, if_neg (by omega)]
          obtain ⟨i1, i2, i3⟩ := ih (n * 10 + (c.toNat - 48)) hov
          refine ⟨fun h => i1 ?_, fun h => i2 ?_, fun h => i3 ?_⟩
          · simpa [hc] using h
          · simpa [hc] using h
          · simpa [hc] using h
        · have hlt : (n * 10 + (c.toNat - 48)) % 2 ^ 64 < n * 10 := by omega
          rw [if_pos (Or.inl hlt)]
          have hbig : 2 ^ 64 ≤ s.foldl (fun n c => n * 10 + (c.toNat - 48))
              (n * 10 + (c.toNat - 48)) := by
            refine Nat.le_trans ?_ (digits_foldl_ge s _)
            omega
          refine ⟨fun _ h => ?_, fun _ _ => rfl, fun _ => Or.inr rfl⟩
          omega
    · have hres : parseUintLoop (c :: s) n = (0, some NumError.ErrSyntax) := by
        rw [parseUintLoop]
        simp [hc]
      refine ⟨fun h => ?_, fun h => ?_, fun _ => Or.inl (by rw [hres])⟩
      · simp [hc] at h
      · simp [hc] at h

/-- The year that `ConvertSearchInfo` keeps, from the sign and the result of `ParseUint`. -/
theorem parseInt_cons (c : Char) (rest : Str) :
    ParseInt (c :: rest) =
      if (ParseUint (if c = '+' ∨ c = '-' then rest else c :: rest)).2 = some NumError.ErrSyntax
      then (0, (ParseUint (if c = '+' ∨ c = '-' then rest else c :: rest)).2)
      else if ¬ c = '-' ∧ (ParseUint (if c = '+' ∨ c = '-' then rest else c :: rest)).1 ≥ 2 ^ 63
      then (2 ^ 63 - 1, some NumError.ErrRange)
      else if c = '-' ∧ (ParseUint (if c = '+' ∨ c = '-' then rest else c :: rest)).1 > 2 ^ 63
      then (-(2 ^ 63), some NumError.ErrRange)
      else (if c = '-' then
          -((ParseUint (if c = '+' ∨ c = '-' then rest else c :: rest)).1 : Int)
        else ((ParseUint (if c = '+' ∨ c = '-' then rest else c :: rest)).1 : Int), none) := by
  rfl

theorem literalValue_cons (c : Char) (rest : Str) :
    literalValue (c :: rest) =
      if c = '-' then -(digitsValue (if c = '+' ∨ c = '-' then rest else c :: rest) : Int)
      else (digitsValue (if c = '+' ∨ c = '-' then rest else c :: rest) : Int) := by
  unfold literalValue
  by_cases h1 : c = '-'
  · simp [h1]
  · by_cases h2 : c = '+'
    · simp [h2]
    · simp [h1, h2]

theorem parseInt_core (neg : Prop) [Decidable neg] (ds : Str) :
    (if (if (ParseUint ds).2 = some NumError.ErrSyntax then ((0 : Int), (ParseUint ds).2)
          else if ¬ neg ∧ (ParseUint ds).1 ≥ 2 ^ 63 then (2 ^ 63 - 1, some NumError.ErrRange)
          else if neg ∧ (ParseUint ds).1 > 2 ^ 63 then (-(2 ^ 63), some NumError.ErrRange)
          else (if neg then -((ParseUint ds).1 : Int) else ((ParseUint ds).1 : Int), none)).2
        ≠ none then 0
      else
        (if (ParseUint ds).2 = some NumError.ErrSyntax then ((0 : Int), (ParseUint ds).2)
          else if ¬ neg ∧ (ParseUint ds).1 ≥ 2 ^ 63 then (2 ^ 63 - 1, some NumError.ErrRange)
          else if neg ∧ (ParseUint ds).1 > 2 ^ 63 then (-(2 ^ 63), some NumError.ErrRange)
          else (if neg then -((ParseUint ds).1 : Int) else ((ParseUint ds).1 : Int), none)).1) =
      if (!ds.isEmpty && ds.all isDigitC &&
            decide (-(2 ^ 63) ≤ if neg then -(digitsValue ds : Int) else (digitsValue ds : Int)) &&
            decide ((if neg then -(digitsValue ds : Int) else (digitsValue ds : Int)) < 2 ^ 63))
          = true
      then (if neg then -(digitsValue ds : Int) else (digitsValue ds : Int)) else 0 := by
  unfold ParseUint
  by_cases hds : ds = []
  · subst hds
    simp
  · rw [if_neg hds]
    obtain ⟨i1, i2, i3⟩ := parseUintLoop_spec ds 0 (by decide)
    have hV : digitsValue ds = ds.foldl (fun n c => n * 10 + (c.toNat - 48)) 0 := rfl
    by_cases hall : ds.all isDigitC = true
    · have hne : ds.isEmpty = false := by simpa using hds
      by_cases hlt : digitsValue ds < 2 ^ 64
      · rw [i1 hall (hV ▸ hlt), ← hV]
        simp only [hall, hne]
        by_cases hneg : neg
        · simp only [hneg]
          simp
          split_ifs <;> simp_all <;> omega
        · simp only [hneg]
          simp
          split_ifs <;> simp_all <;> omega
      · rw [i2 hall (hV ▸ (by omega))]
        simp only [hall, hne]
        by_cases hneg : neg
        · simp [hneg]
          rw [if_neg (by omega)]
        · simp [hneg]
          rw [if_neg (by omega)]
    · have hall2 : ds.all isDigitC = false := by simpa using hall
      have hrhs : (!ds.isEmpty && ds.all isDigitC) = false := by simp [hall2]
      rw [hrhs]
      rcases i3 hall2 with h | h
      · simp [h]
      · rw [h]
        by_cases hneg : neg
        · simp [hneg]
        · simp [hneg]

theorem parseInt_year (s : Str) :
    (if (ParseInt s).2 ≠ none then 0 else (ParseInt s).1) =
      if isInt64Literal s = true then literalValue s else 0 := by
  cases s with
  | nil => rfl
  | cons c rest =>
    rw [parseInt_cons]
    unfold isInt64Literal
    rw [literalValue_cons]
    unfold isDecimalLiteral
    exact parseInt_core (c = '-') _

/-- C8: the `Year` of the search record is the value of `detail.Year` when that string is a
base-10 literal of a signed 64-bit integer (an optional sign, one digit or more, a
value from -2^63 to 2^63-1), and 0 for every other string; the conversion is a total
function. -/
theorem convertSearchInfo_year (env : Env) (detail : MovieDetail) :
    (ConvertSearchInfo env detail).Year =
      if isInt64Literal detail.Year = true then literalValue detail.Year else 0 := by
  rw [convertSearchInfo_year_eq]
  exact parseInt_year detail.Year

/-- Examples for C8: the strings `2024`, `-5` and `+7` give their value; `unknown`, the empty
string, `1_000` and the digit string `9223372036854775808` give 0. -/
theorem convertSearchInfo_year_examples :
    (ConvertSearchInfo Env.example { MovieDetail.blank with Year := "2024".toList }).Year = 2024 ∧
    (ConvertSearchInfo Env.example { MovieDetail.blank with Year := "-5".toList }).Year = -5 ∧
    (ConvertSearchInfo Env.example { MovieDetail.blank with Year := "+7".toList }).Year = 7 ∧
    (ConvertSearchInfo Env.example { MovieDetail.blank with Year := "unknown".toList }).Year = 0 ∧
    (ConvertSearchInfo Env.example { MovieDetail.blank with Year := [] }).Year = 0 ∧
    (ConvertSearchInfo Env.example { MovieDetail.blank with Year := "1_000".toList }).Year = 0 ∧
    (ConvertSearchInfo Env.example
      { MovieDetail.blank with Year := "9223372036854775808".toList }).Year = 0 := by
  decide

/-! ## Merging two records in either order -/

theorem mem_liveTokens (l : List (Str × Str)) (p : Str × Str) :
    p ∈ liveTokens l ↔ p ∈ l ∧ p.1 ≠ [] := by
  unfold liveTokens
  rw [List.mem_filter]
  cases h : p.1 <;> simp

theorem liveTokens_append (l1 l2 : List (Str × Str)) :
    liveTokens (l1 ++ l2) = liveTokens l1 ++ liveTokens l2 := by
  unfold liveTokens
  rw [List.filter_append]

/-- A token whose tested string is empty is never appended. -/
theorem mergeTokens_live (l : List (Str × Str)) :
    ∀ v : Str, mergeTokens v l = mergeTokens v (liveTokens l) := by
  induction l with
  | nil => intro v; rfl
  | cons p l ih =>
    intro v
    by_cases hp : p.1 = []
    · have e : liveTokens (p :: l) = liveTokens l := by
        unfold liveTokens
        rw [List.filter_cons_of_neg (by simp [hp])]
      rw [e, mergeTokens_cons, appendUnless_of_contains v p.1 p.2 (hp ▸ List.nil_infix)]
      exact ih v
    · have e : liveTokens (p :: l) = p :: liveTokens l := by
        unfold liveTokens
        rw [List.filter_cons_of_pos (by simpa using hp)]
      rw [e, mergeTokens_cons, mergeTokens_cons]
      exact ih _

theorem any_contains_iff (ts : List Str) (u : Str) :
    ts.any (fun x => Contains x u) = true ↔ ∃ x ∈ ts, u <:+: x := by
  rw [List.any_eq_true]
  constructor
  · rintro ⟨x, hx, h⟩
    exact ⟨x, hx, (contains_iff x u).1 h⟩
  · rintro ⟨x, hx, h⟩
    exact ⟨x, hx, (contains_iff x u).2 h⟩

theorem infix_iff_baseTokens (u v : Str) (hc : ',' ∉ u) (hne : u ≠ []) :
    u <:+: v ↔ ∃ x ∈ baseTokens v, u <:+: x :=
  ⟨exists_baseTokens_of_occurs u v hc hne, infix_of_mem_baseTokens u v⟩

/-- The tokens after one token has gone through `appendUnless`. -/
theorem baseTokens_appendUnless (v : Str) (p : Str × Str) (hne : p.1 ≠ []) (hc : ',' ∉ p.2)
    (hin : p.1 <:+: p.2) :
    baseTokens (appendUnless v p.1 p.2) = appendToken (baseTokens v) p := by
  have hc1 : ',' ∉ p.1 := fun e => hc (hin.subset e)
  have hne2 : p.2 ≠ [] := by
    intro e
    rw [e] at hin
    exact hne (List.infix_nil.1 hin)
  unfold appendToken
  by_cases h : p.1 <:+: v
  · rw [appendUnless_of_contains v p.1 p.2 h,
      if_pos ((any_contains_iff _ _).2 ((infix_iff_baseTokens p.1 v hc1 hne).1 h))]
  · rw [appendUnless_of_not_contains v p.1 p.2 h, baseTokens_trim_append v p.2 hne2 hc,
      if_neg (fun e => h ((infix_iff_baseTokens p.1 v hc1 hne).2 ((any_contains_iff _ _).1 e)))]

theorem baseTokens_mergeTokens (l : List (Str × Str))
    (h : ∀ p ∈ l, p.1 ≠ [] ∧ ',' ∉ p.2 ∧ p.1 <:+: p.2) :
    ∀ v : Str, baseTokens (mergeTokens v l) = foldTokens (baseTokens v) l := by
  induction l with
  | nil => intro v; rfl
  | cons p l ih =>
    intro v
    obtain ⟨h1, h2, h3⟩ := h p (List.mem_cons_self _ _)
    rw [mergeTokens_cons, ih (fun r hr => h r (List.mem_cons_of_mem _ hr)),
      baseTokens_appendUnless v p h1 h2 h3]
    rfl

/-- Once a token has been appended the facet string has no leading comma: its tokens
are its base tokens. -/
theorem split_appendUnless (v : Str) (p : Str × Str) (hne : p.1 ≠ []) (hc : ',' ∉ p.2)
    (hin : p.1 <:+: p.2) (h : ¬ p.1 <:+: v ∨ Split v ',' = baseTokens v) :
    Split (appendUnless v p.1 p.2) ',' = baseTokens (appendUnless v p.1 p.2) := by
  have hne2 : p.2 ≠ [] := by
    intro e
    rw [e] at hin
    exact hne (List.infix_nil.1 hin)
  by_cases hv : p.1 <:+: v
  · rw [appendUnless_of_contains v p.1 p.2 hv]
    rcases h with h | h
    · exact absurd hv h
    · exact h
  · rw [appendUnless_of_not_contains v p.1 p.2 hv, baseTokens_trim_append v p.2 hne2 hc,
      split_trim_append v p.2 hne2 hc]

theorem split_mergeTokens_of_split (l : List (Str × Str))
    (h : ∀ p ∈ l, p.1 ≠ [] ∧ ',' ∉ p.2 ∧ p.1 <:+: p.2) :
    ∀ v : Str, Split v ',' = baseTokens v →
      Split (mergeTokens v l) ',' = baseTokens (mergeTokens v l) := by
  induction l with
  | nil => intro v hv; exact hv
  | cons p l ih =>
    intro v hv
    obtain ⟨h1, h2, h3⟩ := h p (List.mem_cons_self _ _)
    rw [mergeTokens_cons]
    exact ih (fun r hr => h r (List.mem_cons_of_mem _ hr)) _
      (split_appendUnless v p h1 h2 h3 (Or.inr hv))

theorem split_mergeTokens_of_exists (l : List (Str × Str))
    (h : ∀ p ∈ l, p.1 ≠ [] ∧ ',' ∉ p.2 ∧ p.1 <:+: p.2) :
    ∀ v : Str, (∃ p ∈ l, ¬ p.1 <:+: v) →
      Split (mergeTokens v l) ',' = baseTokens (mergeTokens v l) := by
  induction l with
  | nil => rintro v ⟨p, hp, _⟩; simp at hp
  | cons p l ih =>
    intro v hex
    obtain ⟨h1, h2, h3⟩ := h p (List.mem_cons_self _ _)
    have hl : ∀ r ∈ l, r.1 ≠ [] ∧ ',' ∉ r.2 ∧ r.1 <:+: r.2 :=
      fun r hr => h r (List.mem_cons_of_mem _ hr)
    rw [mergeTokens_cons]
    by_cases hv : p.1 <:+: v
    · rw [appendUnless_of_contains v p.1 p.2 hv]
      apply ih hl
      obtain ⟨r, hr, hrv⟩ := hex
      rcases List.mem_cons.1 hr with e | e
      · subst e; exact absurd hv hrv
      · exact ⟨r, e, hrv⟩
    · exact split_mergeTokens_of_split l hl _ (split_appendUnless v p h1 h2 h3 (Or.inl hv))

theorem foldTokens_cons (ts : List Str) (p : Str × Str) (l : List (Str × Str)) :
    foldTokens ts (p :: l) = foldTokens (appendToken ts p) l := rfl

theorem foldTokens_append (ts : List Str) (l1 l2 : List (Str × Str)) :
    foldTokens ts (l1 ++ l2) = foldTokens (foldTokens ts l1) l2 := by
  unfold foldTokens
  rw [List.foldl_append]

theorem mem_appendToken (ts : List Str) (p : Str × Str) (x : Str) :
    x ∈ appendToken ts p ↔ x ∈ ts ∨ ((¬ ∃ t ∈ ts, p.1 <:+: t) ∧ x = p.2) := by
  unfold appendToken
  by_cases h : ts.any (fun t => Contains t p.1) = true
  · rw [if_pos h]
    have := (any_contains_iff ts p.1).1 h
    constructor
    · exact Or.inl
    · rintro (e | ⟨e, _⟩)
      · exact e
      · exact absurd this e
  · rw [if_neg h]
    have hn : ¬ ∃ t ∈ ts, p.1 <:+: t := fun e => h ((any_contains_iff ts p.1).2 e)
    simp [hn]

theorem foldTokens_mono (l : List (Str × Str)) :
    ∀ (ts : List Str) (x : Str), x ∈ ts → x ∈ foldTokens ts l := by
  induction l with
  | nil => intro ts x h; exact h
  | cons p l ih =>
    intro ts x h
    rw [foldTokens_cons]
    exact ih _ x ((mem_appendToken ts p x).2 (Or.inl h))

theorem foldTokens_sub (l : List (Str × Str)) :
    ∀ (ts : List Str) (x : Str), x ∈ foldTokens ts l → x ∈ ts ∨ ∃ p ∈ l, x = p.2 := by
  induction l with
  | nil => intro ts x h; exact Or.inl h
  | cons p l ih =>
    intro ts x h
    rw [foldTokens_cons] at h
    rcases ih _ x h with e | ⟨r, hr, e⟩
    · rcases (mem_appendToken ts p x).1 e with e1 | ⟨_, e1⟩
      · exact Or.inl e1
      · exact Or.inr ⟨p, List.mem_cons_self _ _, e1⟩
    · exact Or.inr ⟨r, List.mem_cons_of_mem _ hr, e⟩

/-- Tokens `xs` that are already there do not change what a record adds, as long as a
token of the record whose tested string occurs inside one of them is that very token. -/
theorem foldTokens_union (l : List (Str × Str)) (xs : List Str)
    (hX : ∀ p ∈ l, ∀ x ∈ xs, p.1 <:+: x → p.2 = x) :
    ∀ (ts ts2 : List Str), (∀ x, x ∈ ts2 ↔ x ∈ ts ∨ x ∈ xs) →
      ∀ x, x ∈ foldTokens ts2 l ↔ x ∈ foldTokens ts l ∨ x ∈ xs := by
  induction l with
  | nil => intro ts ts2 h x; exact h x
  | cons p l ih =>
    intro ts ts2 h x
    rw [foldTokens_cons, foldTokens_cons]
    apply ih (fun r hr => hX r (List.mem_cons_of_mem _ hr))
    intro y
    rw [mem_appendToken, mem_appendToken, h y]
    constructor
    · rintro (e | ⟨hn, e⟩)
      · rcases e with e | e
        · exact Or.inl (Or.inl e)
        · exact Or.inr e
      · refine Or.inl (Or.inr ⟨?_, e⟩)
        rintro ⟨t, ht, hpt⟩
        exact hn ⟨t, (h t).2 (Or.inl ht), hpt⟩
    · rintro ((e | ⟨hn, e⟩) | e)
      · exact Or.inl (Or.inl e)
      · by_cases hc : ∃ t ∈ ts2, p.1 <:+: t
        · obtain ⟨t, ht, hpt⟩ := hc
          rcases (h t).1 ht with ht1 | ht1
          · exact absurd ⟨t, ht1, hpt⟩ hn
          · have := hX p (List.mem_cons_self _ _) t ht1 hpt
            exact Or.inl (Or.inr (by rw [e, this]; exact ht1))
        · exact Or.inr ⟨hc, e⟩
      · exact Or.inl (Or.inr e)

/-- The tokens that a record adds to a list of tokens. -/
theorem foldTokens_added (l : List (Str × Str)) (ts : List Str) (x : Str) :
    x ∈ foldTokens ts l ↔
      x ∈ ts ∨ x ∈ (foldTokens ts l).filter (fun y => decide (y ∈ l.map Prod.snd)) := by
  constructor
  · intro h
    rcases foldTokens_sub l ts x h with e | ⟨p, hp, e⟩
    · exact Or.inl e
    · refine Or.inr (List.mem_filter.2 ⟨h, ?_⟩)
      simp only [decide_eq_true_eq, List.mem_map]
      exact ⟨p, hp, e.symm⟩
  · rintro (e | e)
    · exact foldTokens_mono l ts x e
    · exact (List.mem_filter.1 e).1

theorem foldTokens_comm (l1 l2 : List (Str × Str))
    (h12 : ∀ p ∈ l1, ∀ q ∈ l2, p.1 <:+: q.2 → p.2 = q.2)
    (h21 : ∀ q ∈ l2, ∀ p ∈ l1, q.1 <:+: p.2 → q.2 = p.2) (ts : List Str) (x : Str) :
    x ∈ foldTokens (foldTokens ts l1) l2 ↔ x ∈ foldTokens (foldTokens ts l2) l1 := by
  have hA := foldTokens_union l1 ((foldTokens ts l2).filter (fun y => decide (y ∈ l2.map Prod.snd)))
    (by
      intro p hp y hy hpy
      have hy2 := (List.mem_filter.1 hy).2
      simp only [decide_eq_true_eq, List.mem_map] at hy2
      obtain ⟨q, hq, e⟩ := hy2
      subst e
      exact h12 p hp q hq hpy)
    ts (foldTokens ts l2) (foldTokens_added l2 ts) x
  have hB := foldTokens_union l2 ((foldTokens ts l1).filter (fun y => decide (y ∈ l1.map Prod.snd)))
    (by
      intro q hq y hy hqy
      have hy2 := (List.mem_filter.1 hy).2
      simp only [decide_eq_true_eq, List.mem_map] at hy2
      obtain ⟨p, hp, e⟩ := hy2
      subst e
      exact h21 q hq p hp hqy)
    ts (foldTokens ts l1) (foldTokens_added l1 ts) x
  rw [hA, hB, foldTokens_added l1 ts x, foldTokens_added l2 ts x]
  constructor
  · rintro ((e | e) | e)
    · exact Or.inl (Or.inl e)
    · exact Or.inr e
    · exact Or.inl (Or.inr e)
  · rintro ((e | e) | e)
    · exact Or.inl (Or.inl e)
    · exact Or.inr e
    · exact Or.inl (Or.inr e)

/-- The set of tokens of a facet after the tokens of two records have been merged does
not depend on which record is merged first. -/
theorem tokens_mergeTokens_cross (l1 l2 : List (Str × Str)) (hind : crossIndependent l1 l2)
    (hin : ∀ p ∈ l1 ++ l2, p.1 <:+: p.2) (v x : Str) :
    x ∈ tokens (mergeTokens (mergeTokens v l1) l2) ↔
      x ∈ tokens (mergeTokens (mergeTokens v l2) l1) := by
  obtain ⟨hc, h12, h21⟩ := hind
  have hl1 : ∀ p ∈ liveTokens l1, p.1 ≠ [] ∧ ',' ∉ p.2 ∧ p.1 <:+: p.2 := by
    intro p hp
    have hp2 := (mem_liveTokens l1 p).1 hp
    exact ⟨hp2.2, hc p (by rw [liveTokens_append]; exact List.mem_append_left _ hp),
      hin p (List.mem_append_left _ hp2.1)⟩
  have hl2 : ∀ p ∈ liveTokens l2, p.1 ≠ [] ∧ ',' ∉ p.2 ∧ p.1 <:+: p.2 := by
    intro p hp
    have hp2 := (mem_liveTokens l2 p).1 hp
    exact ⟨hp2.2, hc p (by rw [liveTokens_append]; exact List.mem_append_right _ hp),
      hin p (List.mem_append_right _ hp2.1)⟩
  have h12l : ∀ p ∈ liveTokens l1 ++ liveTokens l2, p.1 ≠ [] ∧ ',' ∉ p.2 ∧ p.1 <:+: p.2 := by
    intro p hp
    rcases List.mem_append.1 hp with e | e
    · exact hl1 p e
    · exact hl2 p e
  have h21l : ∀ p ∈ liveTokens l2 ++ liveTokens l1, p.1 ≠ [] ∧ ',' ∉ p.2 ∧ p.1 <:+: p.2 := by
    intro p hp
    rcases List.mem_append.1 hp with e | e
    · exact hl2 p e
    · exact hl1 p e
  rw [mergeTokens_live l1, mergeTokens_live l2 (mergeTokens v (liveTokens l1)),
    mergeTokens_live l2 v, mergeTokens_live l1 (mergeTokens v (liveTokens l2)),
    ← mergeTokens_append, ← mergeTokens_append]
  by_cases hall : ∀ p ∈ liveTokens l1 ++ liveTokens l2, p.1 <:+: v
  · have hall2 : ∀ p ∈ liveTokens l2 ++ liveTokens l1, p.1 <:+: v := by
      intro p hp
      rcases List.mem_append.1 hp with e | e
      · exact hall p (List.mem_append_right _ e)
      · exact hall p (List.mem_append_left _ e)
    rw [mergeTokens_fixed _ _ hall, mergeTokens_fixed _ _ hall2]
  · have hex : ∃ p ∈ liveTokens l1 ++ liveTokens l2, ¬ p.1 <:+: v := by
      by_contra hcon
      apply hall
      intro r hr
      by_contra hr2
      exact hcon ⟨r, hr, hr2⟩
    have hex2 : ∃ p ∈ liveTokens l2 ++ liveTokens l1, ¬ p.1 <:+: v := by
      obtain ⟨p, hp, h⟩ := hex
      refine ⟨p, ?_, h⟩
      rcases List.mem_append.1 hp with e | e
      · exact List.mem_append_right _ e
      · exact List.mem_append_left _ e
    unfold tokens
    rw [split_mergeTokens_of_exists _ h12l v hex, split_mergeTokens_of_exists _ h21l v hex2,
      baseTokens_mergeTokens _ h12l, baseTokens_mergeTokens _ h21l, foldTokens_append,
      foldTokens_append]
    apply foldTokens_comm
    · intro p hp q hq hpq
      exact h12 p hp q hq ((contains_iff _ _).2 hpq)
    · intro q hq p hp hqp
      exact h21 q hq p hp ((contains_iff _ _).2 hqp)

theorem contained_pair (a b : Str) :
    ∀ p ∈ [(a, a)] ++ [(b, b)], p.1 <:+: p.2 := by
  intro p hp
  simp at hp
  rcases hp with e | e <;> subst e <;> exact List.infix_refl _

theorem contained_of_append (l1 l2 : List (Str × Str)) (h1 : ∀ p ∈ l1, p.1 <:+: p.2)
    (h2 : ∀ p ∈ l2, p.1 <:+: p.2) : ∀ p ∈ l1 ++ l2, p.1 <:+: p.2 := by
  intro p hp
  rcases List.mem_append.1 hp with e | e
  · exact h1 p e
  · exact h2 p e

theorem applyMerges_cons (st : Store) (op : Int × SearchInfo) (ops : List (Int × SearchInfo)) :
    applyMerges st (op :: ops) = applyMerges (SearchKeyword op.1 st op.2) ops := rfl

/-- A document that `SearchKeyword` has written has a `Year`: in a store built by calls
of `SearchKeyword` a document without a `Year` is an absent one. -/
theorem applyMerges_year_nil (ops : List (Int × SearchInfo)) :
    ∀ st : Store, (∀ pid, (st.keywords pid).Year = [] → st.keywords pid = Vocab.empty) →
      ∀ pid, ((applyMerges st ops).keywords pid).Year = [] →
        (applyMerges st ops).keywords pid = Vocab.empty := by
  induction ops with
  | nil => intro st h; exact h
  | cons op ops ih =>
    intro st h
    rw [applyMerges_cons]
    apply ih
    intro pid hy
    by_cases hp : pid = op.2.Pid
    · subst hp
      rw [searchKeyword_keywords] at hy
      exact absurd hy (searchKeywordDoc_year_ne _ _ _)
    · rw [searchKeyword_keywords_other _ _ _ _ hp] at hy ⊢
      exact h pid hy

theorem searchKeywordDoc_tokens_kept (y : Int) (doc : Vocab) (r : SearchInfo)
    (hdoc : doc.Year = [] → doc = Vocab.empty) (x : Str) (hx : x ≠ []) :
    (x ∈ tokens doc.Category → x ∈ tokens (searchKeywordDoc y doc r).Category) ∧
    (x ∈ tokens doc.Tag → x ∈ tokens (searchKeywordDoc y doc r).Tag) ∧
    (x ∈ tokens doc.Area → x ∈ tokens (searchKeywordDoc y doc r).Area) ∧
    (x ∈ tokens doc.Language → x ∈ tokens (searchKeywordDoc y doc r).Language) := by
  by_cases hy : doc.Year = []
  · rw [hdoc hy]
    have hnil : x ∉ tokens ([] : Str) := by
      intro h
      simp [tokens, Split] at h
      exact hx h
    exact ⟨fun h => absurd h hnil, fun h => absurd h hnil, fun h => absurd h hnil,
      fun h => absurd h hnil⟩
  · rw [searchKeywordDoc, loadKeyword_of_year_ne y _ hy, mergeKeyword_eq]
    exact ⟨mergeTokens_tokens_mono x hx _ _, mergeTokens_tokens_mono x hx _ _,
      mergeTokens_tokens_mono x hx _ _, mergeTokens_tokens_mono x hx _ _⟩

/-- C6: in every store that calls of `SearchKeyword` have built from the empty store, and for
every record, each of the facets Category, Tag, Area and Language of the document
read still has, after the merge, every comma-separated token it had before; a token
is a non-empty piece, the empty facet string holding none. -/
theorem searchKeyword_tokens_kept (ops : List (Int × SearchInfo)) (y : Int) (r : SearchInfo)
    (x : Str) (hx : x ≠ []) :
    (x ∈ tokens ((applyMerges Store.empty ops).keywords r.Pid).Category →
      x ∈ tokens ((SearchKeyword y (applyMerges Store.empty ops) r).keywords r.Pid).Category) ∧
    (x ∈ tokens ((applyMerges Store.empty ops).keywords r.Pid).Tag →
      x ∈ tokens ((SearchKeyword y (applyMerges Store.empty ops) r).keywords r.Pid).Tag) ∧
    (x ∈ tokens ((applyMerges Store.empty ops).keywords r.Pid).Area →
      x ∈ tokens ((SearchKeyword y (applyMerges Store.empty ops) r).keywords r.Pid).Area) ∧
    (x ∈ tokens ((applyMerges Store.empty ops).keywords r.Pid).Language →
      x ∈ tokens ((SearchKeyword y (applyMerges Store.empty ops) r).keywords r.Pid).Language) := by
  rw [searchKeyword_keywords]
  exact searchKeywordDoc_tokens_kept y _ r
    (applyMerges_year_nil ops Store.empty (fun _ _ => rfl) r.Pid) x hx

/-- C6, witness: after a record with the area `USA/Canada` has been merged into the empty
store, the Area facet keeps its token `USA` when a record with the area `Japan/Korea`
is merged. -/
theorem searchKeyword_tokens_kept_witness :
    "USA".toList ∈ tokens ((SearchKeyword 2025
        (applyMerges Store.empty
          [(2024, { SearchInfo.blank with Pid := 1, Area := "USA/Canada".toList })])
        { SearchInfo.blank with Pid := 1, Area := "Japan/Korea".toList }).keywords 1).Area :=
  (searchKeyword_tokens_kept
    [(2024, { SearchInfo.blank with Pid := 1, Area := "USA/Canada".toList })] 2025
    { SearchInfo.blank with Pid := 1, Area := "Japan/Korea".toList }
    "USA".toList (by decide)).2.2.1 (by decide)

end GoFilm
